import Mathlib

/-
Verification of the VedaLang → TableIR compiler
(src/vedalang/compiler/compiler.py).

Modelling conventions for the shallow embedding:
* Python dicts are modelled as insertion-ordered association lists
  (`List (String × Value)` for rows); dict assignment and `dict.update`
  are modelled by `rowSet` / `rowUpdate` below, which replace the value
  of an existing key in place and append fresh keys at the end, exactly
  as CPython preserves insertion order.
* Python numbers (int and float) are modelled as exact rationals `ℚ`.
* An optional dict key is an `Option` field; a key that the JSON schema
  makes mandatory and that the code reads with `d["k"]` is a plain field.
* Year keys of time-series dicts are written as strings in the source
  documents and converted with `int(...)` by the compiler; they are
  modelled directly as `ℤ`.  (`sorted(values.items())` on 4-digit year
  strings coincides with numeric order.)
* Python `sorted` is a stable sort; it is modelled with
  `List.insertionSort`, which is also stable.
-/

namespace Vedalang

/-- A scalar cell value of a TableIR row: a string, a number (Python int
or float, modelled as `ℚ`), or Python `None`. -/
inductive Value where
  | s : String → Value
  | n : ℚ → Value
  | null : Value
deriving DecidableEq, Repr

/-- A TableIR row: an insertion-ordered mapping of column name → value,
modelling a Python dict. -/
abbrev Row := List (String × Value)

/-- `row[k] = v` on a Python dict: replace the value of an existing key
in place, otherwise append the new key at the end. -/
def rowSet (r : Row) (k : String) (v : Value) : Row :=
  if r.any (fun kv => kv.1 == k) then
    r.map (fun kv => if kv.1 == k then (k, v) else kv)
  else
    r ++ [(k, v)]

/-- `row.update(u)` on a Python dict: assign every pair of `u` in order. -/
def rowUpdate (r u : Row) : Row :=
  u.foldl (fun acc kv => rowSet acc kv.1 kv.2) r

/-- Python string comparison (`<` on code points), on the underlying
character lists.  The decidability instance of core `String.lt` does not
kernel-reduce, so the embedding uses this executable equivalent. -/
def charListLt : List Char → List Char → Bool
  | [], [] => false
  | [], _ :: _ => true
  | _ :: _, [] => false
  | a :: as, b :: bs =>
      if a < b then true else if b < a then false else charListLt as bs

/-- Python `a <= b` on strings. -/
def strLeB (a b : String) : Bool :=
  !(charListLt b.data a.data)

/-- Python `sorted` on a list of strings. -/
def sortedStrings (l : List String) : List String :=
  List.insertionSort (fun a b => strLeB a b = true) l

/-- `ENERGY_UNITS` (compiler.py line 13). -/
def ENERGY_UNITS : List String :=
  ["PJ", "TJ", "GJ", "MWh", "GWh", "TWh", "MTOE", "KTOE"]

/-- `POWER_UNITS` (compiler.py line 14). -/
def POWER_UNITS : List String :=
  ["GW", "MW", "kW", "TW"]

/-- `DEFAULT_UNITS` (compiler.py lines 18-23): default units by
commodity type. -/
def DEFAULT_UNITS : List (String × String) :=
  [("energy", "PJ"), ("demand", "PJ"), ("emission", "Mt"), ("material", "Mt")]

/-- `ATTR_TO_COLUMN` (compiler.py lines 33-41): VedaLang attribute names
to canonical TableIR/VEDA column names. -/
def ATTR_TO_COLUMN : List (String × String) :=
  [("efficiency", "eff"), ("invcost", "ncap_cost"), ("fixom", "ncap_fom"),
   ("varom", "act_cost"), ("life", "ncap_tlife"), ("cost", "ire_price"),
   ("availability_factor", "ncap_af")]

/-- `INTERPOLATION_CODES` (compiler.py lines 44-51): interpolation mode
to VEDA integer code. -/
def INTERPOLATION_CODES : List (String × ℚ) :=
  [("none", -1), ("interp_only", 1), ("interp_extrap_eps", 2),
   ("interp_extrap", 3), ("interp_extrap_back", 4),
   ("interp_extrap_forward", 5)]

/-- `_get_default_unit` (compiler.py lines 88-90). -/
def getDefaultUnit (ctype : String) : String :=
  (List.lookup ctype DEFAULT_UNITS).getD "PJ"

/-- The value of a scalar-or-time-varying process attribute.  A Python
value `v` with `_is_time_varying(v)` true (a dict with a `"values"` key)
is `timeVarying values interpolation`, where `interpolation` is the
optional `"interpolation"` entry; any other value is `scalar`. -/
inductive AttrValue where
  | scalar : ℚ → AttrValue
  | timeVarying : List (ℤ × ℚ) → Option String → AttrValue
deriving DecidableEq

/-- `sorted(values.items())` for a year→value dict (years modelled as
`ℤ`, see the header note): a stable sort by year. -/
def sortPoints (sv : List (ℤ × ℚ)) : List (ℤ × ℚ) :=
  List.insertionSort (fun a b => a.1 ≤ b.1) sv

/-- The canonical column of the attribute, `ATTR_TO_COLUMN.get(attr, attr)`
(compiler.py line 117). -/
def attrColumn (attrName : String) : String :=
  (List.lookup attrName ATTR_TO_COLUMN).getD attrName

/-- `_expand_time_varying_attr` (compiler.py lines 101-145): expand a
time-varying attribute into a year=0 interpolation-code row (unless the
code of the mode is -1) followed by one row per declared data year. -/
def expandTimeVaryingAttr (attrName : String) (value : AttrValue)
    (baseRow : Row) : List Row :=
  let column := attrColumn attrName
  match value with
  | .scalar v => [rowSet baseRow column (.n v)]
  | .timeVarying values interpOpt =>
    let interpolation := interpOpt.getD "interp_extrap"
    let interpCode := (List.lookup interpolation INTERPOLATION_CODES).getD 3
    let interpRows : List Row :=
      if interpCode ≠ -1 then
        [rowSet (rowSet baseRow "year" (.n 0)) column (.n interpCode)]
      else []
    interpRows ++
      (sortPoints values).map (fun yv =>
        rowSet (rowSet baseRow "year" (.n yv.1)) column (.n yv.2))

/-- The per-target-year body of the loop of `_expand_series_to_years`
(compiler.py lines 794-824): exact declared value, else (if
interpolating) backward/forward extrapolation or linear interpolation
between the bracketing declared points. -/
def interpValueAt (points : List (ℤ × ℚ)) (firstVal lastVal : ℚ)
    (extrapBackward extrapForward doInterpolate : Bool) (ym : ℤ) :
    Option ℚ :=
  match points.find? (fun pv => pv.1 == ym) with
  | some pv => some pv.2
  | none =>
    if !doInterpolate then none
    else
      let before := points.filter (fun pv => pv.1 < ym)
      let after := points.filter (fun pv => ym < pv.1)
      match before.getLast?, after.head? with
      | none, _ => if extrapBackward then some firstVal else none
      | some _, none => if extrapForward then some lastVal else none
      | some p0, some p1 =>
          some (p0.2 + (p1.2 - p0.2) *
            (((ym : ℚ) - (p0.1 : ℚ)) / ((p1.1 : ℚ) - (p0.1 : ℚ))))

/-- `_expand_series_to_years` (compiler.py lines 752-826): expand a
sparse year→value mapping to the model years, with mode-gated
interpolation and extrapolation.  The Python function returns a dict
keyed by year; it is modelled as the association list of (year, value)
pairs produced in model-year order. -/
def expandSeriesToYears (sparseValues : List (ℤ × ℚ))
    (modelYears : List ℤ) (interpolation : String) : List (ℤ × ℚ) :=
  let points := sortPoints sparseValues
  if h : points = [] then []
  else
    let firstVal := (points.head h).2
    let lastVal := (points.getLast h).2
    let extrapBackward :=
      interpolation == "interp_extrap" || interpolation == "interp_extrap_back"
    let extrapForward :=
      interpolation == "interp_extrap" ||
      interpolation == "interp_extrap_forward" ||
      interpolation == "interp_extrap_eps"
    let doInterpolate := interpolation != "none"
    modelYears.filterMap (fun ym =>
      (interpValueAt points firstVal lastVal
          extrapBackward extrapForward doInterpolate ym).map
        (fun v => (ym, v)))

/-- An input or output flow of a process (spec §3 `Flow`): a commodity
reference and an optional share. -/
structure Flow where
  commodity : String
  share : Option ℚ
deriving DecidableEq

/-- A process definition.  `name` is schema-required; every key the code
reads with `.get`/`in` is an `Option` (or defaulted-list) field.
`input`/`output` are the single-flow string shorthands normalised by
`_normalize_process_flows`. -/
structure Process where
  name : String
  description : Option String := none
  sets : List String := []
  primary_commodity_group : Option String := none
  activity_unit : Option String := none
  capacity_unit : Option String := none
  input : Option String := none
  output : Option String := none
  inputs : Option (List Flow) := none
  outputs : Option (List Flow) := none
  efficiency : Option AttrValue := none
  invcost : Option AttrValue := none
  fixom : Option AttrValue := none
  varom : Option AttrValue := none
  life : Option AttrValue := none
  cost : Option AttrValue := none
  availability_factor : Option AttrValue := none
  activity_bound : Option (List (String × ℚ)) := none
  cap_bound : Option (List (String × ℚ)) := none
  ncap_bound : Option (List (String × ℚ)) := none
deriving DecidableEq

/-- A commodity definition: `name` is schema-required, `type` and `unit`
are optional keys (`ctype` models the `"type"` key). -/
structure Commodity where
  name : String
  ctype : Option String := none
  unit : Option String := none
deriving DecidableEq

/-- A scenario definition.  `name`, `commodity`, `interpolation` are
schema-required (the code reads `scenario["interpolation"]` and relies
on `commodity` for both scenario kinds); `type` and `values` are read
with `.get` (a missing `values` behaves as the empty dict). -/
structure Scenario where
  name : String
  stype : Option String := none
  commodity : String
  values : List (ℤ × ℚ) := []
  interpolation : String
deriving DecidableEq

/-- A constraint definition; `name` and `type` (`ctype`) are
schema-required, everything else is read with `.get`. -/
structure Constraint where
  name : String
  ctype : String
  commodity : Option String := none
  limtype : Option String := none
  limit : Option ℚ := none
  years : Option (List (ℤ × ℚ)) := none
  interpolation : Option String := none
  processes : List String := []
  minimum_share : Option ℚ := none
  maximum_share : Option ℚ := none
deriving DecidableEq

/-- A trade link; `origin`, `destination`, `commodity` are required keys
(`link["..."]`), `bidirectional` defaults to `True`, `efficiency` is
optional. -/
structure TradeLink where
  origin : String
  destination : String
  commodity : String
  bidirectional : Option Bool := none
  efficiency : Option ℚ := none
deriving DecidableEq

/-- A timeslice level entry (a dict with a `"code"` key). -/
structure TimesliceCode where
  code : String
deriving DecidableEq

/-- The optional `timeslices` block: per-level code lists and the
year-fraction dict keyed by leaf timeslice name. -/
structure Timeslices where
  season : List TimesliceCode := []
  weekly : List TimesliceCode := []
  daynite : List TimesliceCode := []
  fractions : List (String × ℚ) := []
deriving DecidableEq

/-- The model tree (spec §3 `Model`); keys the code reads with `.get`
are `Option` fields, with the defaults of the code applied at use sites. -/
structure Model where
  name : Option String := none
  regions : Option (List String) := none
  commodities : List Commodity := []
  processes : List Process := []
  scenarios : List Scenario := []
  constraints : List Constraint := []
  trade_links : List TradeLink := []
  timeslices : Option Timeslices := none
  start_year : Option ℤ := none
  time_periods : Option (List ℤ) := none
deriving DecidableEq

/-- A VedaLang source document: `source["model"]`. -/
structure Source where
  model : Model
deriving DecidableEq

/-- `_normalize_process_flows` (compiler.py lines 59-85): convert the
`input`/`output` string shorthands into singleton flow lists. -/
def normalizeProcessFlows (process : Process) : Process :=
  let p1 :=
    match process.input, process.inputs with
    | some c, none =>
        { process with inputs := some [{ commodity := c, share := none }],
                       input := none }
    | _, _ => process
  match p1.output, p1.outputs with
  | some c, none =>
      { p1 with outputs := some [{ commodity := c, share := none }],
                output := none }
  | _, _ => p1

/-- Read a scalar/time-varying attribute field of a process by its
VedaLang name (the Python `process[attr]` accesses). -/
def Process.attr (p : Process) : String → Option AttrValue
  | "efficiency" => p.efficiency
  | "invcost" => p.invcost
  | "fixom" => p.fixom
  | "varom" => p.varom
  | "life" => p.life
  | "cost" => p.cost
  | "availability_factor" => p.availability_factor
  | _ => none

/-- The attribute list of the cost-parameter collection loop
(compiler.py line 426). -/
def costAttrList : List String :=
  ["invcost", "fixom", "varom", "life", "cost"]

/-- The `cost_params` side-map of scalar cost attributes, keyed by
canonical column name (compiler.py lines 424-434). -/
def scalarCostParams (p : Process) : Row :=
  costAttrList.filterMap (fun attr =>
    match p.attr attr with
    | some (.scalar v) => some (attrColumn attr, Value.n v)
    | _ => none)

/-- The `time_varying_attrs` list collected by the same loop
(compiler.py lines 425-432): the time-varying cost attributes, in
declaration-list order, as (attribute name, value) pairs. -/
def timeVaryingCostAttrs (p : Process) : List (String × AttrValue) :=
  costAttrList.filterMap (fun attr =>
    match p.attr attr with
    | some (.timeVarying vs m) => some (attr, AttrValue.timeVarying vs m)
    | _ => none)

/-- `_collect_bound_params` (compiler.py lines 672-717): one
`{limtype, <bound column>: value}` dict per declared limit kind, in
activity/cap/ncap then declaration order. -/
def collectBoundParams (p : Process) : List Row :=
  [("activity_bound", p.activity_bound, "act_bnd"),
   ("cap_bound", p.cap_bound, "cap_bnd"),
   ("ncap_bound", p.ncap_bound, "ncap_bnd")].flatMap
    (fun spec =>
      match spec.2.1 with
      | none => []
      | some boundSpec =>
        if boundSpec = [] then []
        else
          boundSpec.filterMap (fun kv =>
            match List.lookup kv.1
                [("up", "UP"), ("lo", "LO"), ("fx", "FX")] with
            | some lt => some [("limtype", Value.s lt), (spec.2.2, Value.n kv.2)]
            | none => none))

/-- An input-flow topology row (compiler.py lines 437-445). -/
def inputFlowRow (region pname : String) (f : Flow) : Row :=
  [("region", Value.s region), ("process", Value.s pname),
   ("commodity-in", Value.s f.commodity)] ++
  (match f.share with
   | some sh => [("share-i", Value.n sh)]
   | none => [])

/-- An output-flow topology row before any cost-parameter merge
(compiler.py lines 448-455). -/
def outputFlowRow (region pname : String) (f : Flow) : Row :=
  [("region", Value.s region), ("process", Value.s pname),
   ("commodity-out", Value.s f.commodity)] ++
  (match f.share with
   | some sh => [("share-o", Value.n sh)]
   | none => [])

/-- The efficiency row of a process with a scalar `efficiency`
(compiler.py lines 483-494): process + `eff`, updated with the scalar
cost params and, when present, the first bound. -/
def scalarEffRow (region pname : String) (e : ℚ) (costParams : Row)
    (boundParams : List Row) : Row :=
  let row := rowUpdate
    [("region", Value.s region), ("process", Value.s pname),
     ("eff", Value.n e)] costParams
  match boundParams with
  | b :: _ => rowUpdate row b
  | [] => row

/-- The base row emitted for a process whose `efficiency` is
time-varying but whose scalar cost params are non-empty (compiler.py
lines 472-481): process only (no commodity reference, no `eff`), updated
with the cost params and, when present, the first bound. -/
def timeVaryingEffCostRow (region pname : String) (costParams : Row)
    (boundParams : List Row) : Row :=
  let row := rowUpdate
    [("region", Value.s region), ("process", Value.s pname)] costParams
  match boundParams with
  | b :: _ => rowUpdate row b
  | [] => row

/-- The `~FI_T` rows emitted for one process by the topology loop of
`compile_vedalang_to_tableir` (compiler.py lines 416-521): input flows,
output flows (cost params merged into the first output row when the
process declares no `efficiency` key at all), the efficiency/cost row,
the remaining bound rows anchored to the first output, and the expanded
time-varying attribute rows. -/
def processTopologyRows (defaultRegion : String) (rawProcess : Process) :
    List Row :=
  let p := normalizeProcessFlows rawProcess
  let inputs := p.inputs.getD []
  let outputs := p.outputs.getD []
  let costParams := scalarCostParams p
  let inRows := inputs.map (inputFlowRow defaultRegion p.name)
  let outRows := outputs.enum.map (fun iout =>
    let row := outputFlowRow defaultRegion p.name iout.2
    if iout.1 = 0 ∧ p.efficiency = none ∧ costParams ≠ [] then
      rowUpdate row costParams
    else row)
  let boundParams := collectBoundParams p
  -- the efficiency/cost row, and the bound list left after its
  -- `bound_params.pop(0)` (compiler.py lines 465-494)
  let effRowsAndBounds : List Row × List Row :=
    match p.efficiency with
    | some (.timeVarying _ _) =>
        if costParams ≠ [] then
          ([timeVaryingEffCostRow defaultRegion p.name costParams boundParams],
           boundParams.tail)
        else ([], boundParams)
    | some (.scalar e) =>
        ([scalarEffRow defaultRegion p.name e costParams boundParams],
         boundParams.tail)
    | none => ([], boundParams)
  let firstOutput := (outputs.head?).map (fun f => f.commodity)
  let boundRows := effRowsAndBounds.2.map (fun b =>
    let row := [("region", Value.s defaultRegion),
                ("process", Value.s p.name)] ++
      (match firstOutput with
       | some c => [("commodity-out", Value.s c)]
       | none => [])
    rowUpdate row b)
  let tvAttrs := timeVaryingCostAttrs p ++
    (match p.efficiency with
     | some (.timeVarying vs m) => [("efficiency", AttrValue.timeVarying vs m)]
     | _ => [])
  let baseRow : Row := [("region", Value.s defaultRegion),
                        ("process", Value.s p.name)] ++
    (match firstOutput with
     | some c => [("commodity-out", Value.s c)]
     | none => [])
  let tvRows := tvAttrs.flatMap (fun av =>
    expandTimeVaryingAttr av.1 av.2 baseRow)
  inRows ++ outRows ++ effRowsAndBounds.1 ++ boundRows ++ tvRows

/-- A tagged TableIR table; `uc_sets` is the optional scope-metadata map
of user-constraint tables. -/
structure Table where
  tag : String
  uc_sets : List (String × String) := []
  rows : List Row
deriving DecidableEq

/-- A TableIR sheet. -/
structure Sheet where
  name : String
  tables : List Table
deriving DecidableEq

/-- A TableIR output file. -/
structure FileIR where
  path : String
  sheets : List Sheet
deriving DecidableEq

/-- The TableIR root. -/
structure TableIR where
  files : List FileIR
deriving DecidableEq

/-- The exceptions `compile_vedalang_to_tableir` can raise:
`jsonschema.ValidationError` from source validation (`structural`),
`SemanticValidationError` with its `errors` and `warnings` lists
(`semantic`), a Python `KeyError` on a missing required key, and
`TableValidationError` from the post-compilation table-shape check. -/
inductive CompileError where
  | structural : String → CompileError
  | semantic : List String → List String → CompileError
  | keyError : String → CompileError
  | tableValidation : List String → CompileError
deriving DecidableEq

/-- Python `str(x)` for an optional string (`None` prints as "None"),
as used by f-strings over possibly-absent dict values. -/
def pyStrOpt : Option String → String
  | some s => s
  | none => "None"

/-- A possibly-absent dict value placed into a row (`None` stays
`None`). -/
def optValue : Option String → Value
  | some s => Value.s s
  | none => Value.null

/-- Python `sorted` on a list of ints. -/
def sortInts (l : List ℤ) : List ℤ :=
  List.insertionSort (fun a b => a ≤ b) l

/-- `comm_units.get(name, "PJ")` where
`comm_units = {c["name"]: c.get("unit", "PJ") for c in commodities}`
(compiler.py line 964): for duplicate names the later dict binding wins,
so the last matching commodity is used; no type-indexed default is
consulted. -/
def commUnitGet (commodities : List Commodity) (name : String) : String :=
  match (commodities.filter (fun c => c.name == name)).getLast? with
  | some c => c.unit.getD "PJ"
  | none => "PJ"

/-- The VEDA trade-process naming convention
`T_{B|U}_{commodity}_{origin}_{dest}_01` (compiler.py line 1005). -/
def tradeProcessName (directionCode commodity origin dest : String) :
    String :=
  "T_" ++ directionCode ++ "_" ++ commodity ++ "_" ++ origin ++ "_" ++
    dest ++ "_01"

/-- `defaultdict(list)` grouping of trade links by
(commodity, bidirectional) in first-occurrence order (compiler.py
lines 967-971). -/
def groupTradeLinks (links : List TradeLink) :
    List ((String × Bool) × List TradeLink) :=
  links.foldl (fun acc link =>
    let key := (link.commodity, link.bidirectional.getD true)
    if acc.any (fun g => g.1 == key) then
      acc.map (fun g => if g.1 == key then (g.1, g.2 ++ [link]) else g)
    else acc ++ [(key, [link])]) []

/-- The mutable state threaded through `_compile_trade_links`:
accumulated process declarations, topology rows and the
`emitted_processes` dedup set (kept as a list; only membership is
used). -/
structure TradeAcc where
  processRows : List Row
  topologyRows : List Row
  emitted : List String
deriving DecidableEq

/-- One iteration of the per-link loop of `_compile_trade_links`
(compiler.py lines 1000-1057): set the matrix cell, emit the process
declaration(s) and topology rows on first sight of the process name,
and append the efficiency row when declared. -/
def tradeLinkStep (commodities : List Commodity) (directionCode : String)
    (bidirectional : Bool) (commodity : String)
    (acc : Row × TradeAcc) (link : TradeLink) : Row × TradeAcc :=
  let origin := link.origin
  let dest := link.destination
  let pname := tradeProcessName directionCode commodity origin dest
  let matrixRow := rowSet acc.1 dest (Value.s pname)
  let st := acc.2
  let st1 :=
    if st.emitted.contains pname then st
    else
      let unit := commUnitGet commodities commodity
      let descr :=
        "Trade " ++ commodity ++ " from " ++ origin ++ " to " ++ dest
      let originRow : Row :=
        [("region", Value.s origin), ("process", Value.s pname),
         ("description", Value.s descr), ("sets", Value.s "IRE"),
         ("tact", Value.s unit), ("tcap", Value.s "")]
      let destRows : List Row :=
        if bidirectional then
          [[("region", Value.s dest), ("process", Value.s pname),
            ("description", Value.s descr), ("sets", Value.s "IRE"),
            ("tact", Value.s unit), ("tcap", Value.s "")]]
        else []
      { processRows := st.processRows ++ [originRow] ++ destRows,
        topologyRows := st.topologyRows ++
          [[("region", Value.s origin), ("process", Value.s pname),
            ("commodity-out", Value.s commodity)],
           [("region", Value.s dest), ("process", Value.s pname),
            ("commodity-in", Value.s commodity)]],
        emitted := st.emitted ++ [pname] }
  let st2 :=
    match link.efficiency with
    | some eff =>
        { st1 with topologyRows := st1.topologyRows ++
            [[("region", Value.s origin), ("process", Value.s pname),
              ("commodity-out", Value.s commodity), ("eff", Value.n eff)]] }
    | none => st1
  (matrixRow, st2)

/-- One iteration of the per-origin loop of `_compile_trade_links`
(compiler.py lines 993-1059): skip origins without outgoing links,
otherwise build the matrix row starting from `{commodity: origin}`. -/
def tradeOriginStep (commodities : List Commodity) (directionCode : String)
    (bidirectional : Bool) (commodity : String) (links : List TradeLink)
    (acc : List Row × TradeAcc) (origin : String) : List Row × TradeAcc :=
  let outgoing := links.filter (fun l => l.origin == origin)
  if outgoing = [] then acc
  else
    let start : Row := [(commodity, Value.s origin)]
    let res := outgoing.foldl
      (tradeLinkStep commodities directionCode bidirectional commodity)
      (start, acc.2)
    (acc.1 ++ [res.1], res.2)

/-- One iteration of the per-group loop of `_compile_trade_links`
(compiler.py lines 979-1064). -/
def tradeGroupStep (commodities : List Commodity)
    (acc : List Sheet × TradeAcc)
    (g : (String × Bool) × List TradeLink) : List Sheet × TradeAcc :=
  let commodity := g.1.1
  let bidirectional := g.1.2
  let links := g.2
  let sheetName := (if bidirectional then "Bi" else "Uni") ++ "_" ++ commodity
  let directionCode := if bidirectional then "B" else "U"
  let allRegions := sortedStrings
    ((links.flatMap (fun l => [l.origin, l.destination])).eraseDups)
  let res := allRegions.foldl
    (tradeOriginStep commodities directionCode bidirectional commodity links)
    ([], acc.2)
  (acc.1 ++ [Sheet.mk sheetName [{ tag := "~TRADELINKS", rows := res.1 }]],
   res.2)

/-- `_compile_trade_links` (compiler.py lines 925-1072): returns the
ScenTrade file(s), the explicit `~FI_PROCESS` declaration rows and the
`~FI_T` topology (plus efficiency) rows. -/
def compileTradeLinks (tradeLinks : List TradeLink)
    (commodities : List Commodity) : List FileIR × List Row × List Row :=
  if tradeLinks = [] then ([], [], [])
  else
    let res := (groupTradeLinks tradeLinks).foldl
      (tradeGroupStep commodities)
      ([], { processRows := [], topologyRows := [], emitted := [] })
    ([FileIR.mk "SuppXLS/Trades/ScenTrade__Trade_Links.xlsx" res.1],
     res.2.processRows, res.2.topologyRows)

/-- `_generate_leaf_timeslices` (compiler.py lines 1154-1186):
season×weekly×daynite concatenations, with `[""]` standing in for empty
levels, keeping the non-empty names. -/
def generateLeafTimeslices (seasons weeklies daynites : List String) :
    List String :=
  let sList := if seasons = [] then [""] else seasons
  let wList := if weeklies = [] then [""] else weeklies
  let dList := if daynites = [] then [""] else daynites
  (sList.flatMap (fun s => wList.flatMap (fun w =>
    dList.map (fun d => s ++ w ++ d)))).filter (fun leaf => leaf ≠ "")

/-- `_compile_timeslices` (compiler.py lines 1075-1151): parent rows per
level, leaf rows, and the `YRFR` year-fraction rows. -/
def compileTimeslices (ts : Timeslices) (_regions : List String) :
    List Row × List Row :=
  let seasonCodes := ts.season.map (fun c => c.code)
  let weeklyCodes := ts.weekly.map (fun c => c.code)
  let dayniteCodes := ts.daynite.map (fun c => c.code)
  let tsRows :=
    seasonCodes.map (fun s =>
      [("season", Value.s s), ("weekly", Value.s ""), ("daynite", Value.s "")])
    ++ weeklyCodes.map (fun w =>
      [("season", Value.s ""), ("weekly", Value.s w), ("daynite", Value.s "")])
    ++ (generateLeafTimeslices seasonCodes weeklyCodes dayniteCodes).map
      (fun leaf =>
        [("season", Value.s ""), ("weekly", Value.s ""),
         ("daynite", Value.s leaf)])
  let yrfrRows := ts.fractions.map (fun f =>
    [("timeslice", Value.s f.1), ("attribute", Value.s "YRFR"),
     ("allregions", Value.n f.2)])
  (tsRows, yrfrRows)

/-- `_get_model_years` (compiler.py lines 731-749): representative years
from `start_year` and the period lengths. -/
def getModelYears (m : Model) : List ℤ :=
  let startYear := m.start_year.getD 2020
  let timePeriods := m.time_periods.getD [10, 10, 10, 10]
  (timePeriods.foldl (fun acc p => (acc.1 ++ [acc.2], acc.2 + p))
    (([] : List ℤ), startYear)).1

/-- `_commodity_type_to_csets` (compiler.py lines 720-728). -/
def commodityTypeToCsets (ctype : String) : String :=
  (List.lookup ctype
    [("energy", "NRG"), ("material", "MAT"), ("emission", "ENV"),
     ("demand", "DEM")]).getD "NRG"

/-- `_compile_scenario` (compiler.py lines 829-873): `~TFM_DINS-AT` rows
for `commodity_price` scenarios, one per declared year in sorted order;
other scenario types produce no rows here. -/
def compileScenario (scenario : Scenario) (region : String)
    (_modelYears : List ℤ) : List Row :=
  match scenario.stype with
  | some "commodity_price" =>
      (sortPoints scenario.values).map (fun yv =>
        [("region", Value.s region), ("cset_cn", Value.s scenario.commodity),
         ("year", Value.n yv.1), ("com_cstnet", Value.n yv.2)])
  | _ => []

/-- `_compile_demand_projections` (compiler.py lines 876-922): dense
`com_proj` rows for every `demand_projection` scenario, expanded over
the model years.  (`sorted(dense_values.keys())` of the Python result
dict is modelled by sorting the deduplicated keys of the association
list and looking each one up.) -/
def compileDemandProjections (scenarios : List Scenario) (region : String)
    (modelYears : List ℤ) : List Row :=
  scenarios.flatMap (fun scenario =>
    match scenario.stype with
    | some "demand_projection" =>
        let dense := expandSeriesToYears scenario.values modelYears
          scenario.interpolation
        (sortInts ((dense.map Prod.fst).eraseDups)).filterMap (fun year =>
          (List.lookup year dense).map (fun v =>
            [("region", Value.s region),
             ("commodity", Value.s scenario.commodity),
             ("year", Value.n year), ("com_proj", Value.n v)]))
    | _ => [])

/-- `_compile_emission_cap` (compiler.py lines 1261-1332): per-year
`uc_comprd` LHS rows followed by per-year `uc_rhsrt` RHS rows; the RHS
trajectory is a broadcast single limit or the dense expansion of the
sparse `years` dict. -/
def compileEmissionCap (ucName : String) (commodity : Option String)
    (c : Constraint) (region : String) (modelYears : List ℤ)
    (limtype : String) : List Row :=
  let denseOpt : Option (List (ℤ × ℚ)) :=
    match c.years with
    | some sparse => some (expandSeriesToYears sparse modelYears
        (c.interpolation.getD "interp_extrap"))
    | none =>
        match c.limit with
        | some l => some (modelYears.map (fun y => (y, l)))
        | none => none
  match denseOpt with
  | none => []
  | some dense =>
    let description := "Emission cap on " ++ pyStrOpt commodity
    let sortedYears := sortInts ((dense.map Prod.fst).eraseDups)
    sortedYears.filterMap (fun year =>
      (List.lookup year dense).map (fun _ =>
        [("uc_n", Value.s ucName), ("description", Value.s description),
         ("region", Value.s region), ("year", Value.n year),
         ("commodity", optValue commodity), ("side", Value.s "LHS"),
         ("uc_comprd", Value.n 1)]))
    ++ sortedYears.filterMap (fun year =>
      (List.lookup year dense).map (fun v =>
        [("uc_n", Value.s ucName), ("description", Value.s description),
         ("region", Value.s region), ("year", Value.n year),
         ("limtype", Value.s limtype), ("uc_rhsrt", Value.n v)]))

/-- Python `f"{share:.0%}"`: the share as a percentage with no decimal
places.  (Python rounds ties to even; no tie arises in this
development, and `round` agrees with Python on all non-ties.) -/
def formatPercent0 (q : ℚ) : String :=
  toString (round (q * 100)) ++ "%"

/-- `_compile_share_constraint` (compiler.py lines 1403-1473): per model
year, one `uc_act = 1` LHS row per target process, one
`uc_comprd = -share` LHS row for the reference commodity, and one
`uc_rhsrt = 0` RHS row with the given limit type. -/
def compileShareConstraint (ucName : String) (commodity : Option String)
    (processes : List String) (share : ℚ) (limtype : String)
    (region : String) (modelYears : List ℤ) : List Row :=
  let boundType := if limtype == "LO" then "minimum" else "maximum"
  let description := "Activity share (" ++ boundType ++ " " ++
    formatPercent0 share ++ ") on " ++ pyStrOpt commodity
  modelYears.flatMap (fun year =>
    processes.map (fun process =>
      [("uc_n", Value.s ucName), ("description", Value.s description),
       ("region", Value.s region), ("year", Value.n year),
       ("process", Value.s process), ("side", Value.s "LHS"),
       ("uc_act", Value.n 1)])
    ++ [[("uc_n", Value.s ucName), ("description", Value.s description),
         ("region", Value.s region), ("year", Value.n year),
         ("commodity", optValue commodity), ("side", Value.s "LHS"),
         ("uc_comprd", Value.n (-share))],
        [("uc_n", Value.s ucName), ("description", Value.s description),
         ("region", Value.s region), ("year", Value.n year),
         ("limtype", Value.s limtype), ("uc_rhsrt", Value.n 0)]])

/-- `_compile_activity_share` (compiler.py lines 1335-1400): a `_LO`
constraint for `minimum_share` and a `_UP` constraint for
`maximum_share`, suffixed only when both are present; no rows when the
process list is empty. -/
def compileActivityShare (ucName : String) (commodity : Option String)
    (c : Constraint) (region : String) (modelYears : List ℤ) : List Row :=
  if c.processes = [] then []
  else
    (match c.minimum_share with
     | some mn => compileShareConstraint
         (if c.maximum_share.isSome then ucName ++ "_LO" else ucName)
         commodity c.processes mn "LO" region modelYears
     | none => [])
    ++
    (match c.maximum_share with
     | some mx => compileShareConstraint
         (if c.minimum_share.isSome then ucName ++ "_UP" else ucName)
         commodity c.processes mx "UP" region modelYears
     | none => [])

/-- `_compile_constraints` (compiler.py lines 1189-1258): dispatch on
the constraint type and wrap the rows in the single `~UC_T` file. -/
def compileConstraints (constraints : List Constraint) (region : String)
    (modelYears : List ℤ) : List FileIR :=
  if constraints = [] then []
  else
    let ucRows := constraints.flatMap (fun c =>
      let limtype := (c.limtype.getD "up").toUpper
      if c.ctype == "emission_cap" then
        compileEmissionCap c.name c.commodity c region modelYears limtype
      else if c.ctype == "activity_share" then
        compileActivityShare c.name c.commodity c region modelYears
      else [])
    if ucRows = [] then []
    else
      [FileIR.mk "SuppXLS/Scen_UC_Constraints.xlsx"
        [Sheet.mk "UC_Constraints"
          [{ tag := "~UC_T",
             uc_sets := [("R_E", "AllRegions"), ("T_E", "")],
             rows := ucRows }]]]

/-- The quoted Did-you-mean suggestion suffix (compiler.py
lines 191-207).  `closeMatch` models
`difflib.get_close_matches(name, candidates, n=1, cutoff=0.6)[0]`
(an external library routine, kept as a parameter of the embedding). -/
def suggestHint (closeMatch : String → List String → Option String)
    (name : String) (candidates : List String) : String :=
  match closeMatch name candidates with
  | some m => " Did you mean \x27" ++ m ++ "\x27?"
  | none => ""

/-- The `commodities[name]` lookup of the dict comprehension
`{c["name"]: c for c in ...}` (compiler.py line 186): for duplicate
names the later binding wins. -/
def lookupCommodityLast (cs : List Commodity) (name : String) :
    Option Commodity :=
  (cs.filter (fun c => c.name == name)).getLast?

/-- `validate_cross_references` (compiler.py lines 169-331): collect,
without stopping, the unresolved-reference and scenario-type errors of
the whole model, plus the non-fatal unit-convention warnings.
`closeMatch` models `difflib.get_close_matches` (see `suggestHint`). -/
def validateCrossReferences
    (closeMatch : String → List String → Option String) (m : Model) :
    List String × List String :=
  let commodityNames := m.commodities.map (fun c => c.name)
  let processNames := m.processes.map (fun p => p.name)
  let regions := m.regions.getD []
  let suggestC := fun n => suggestHint closeMatch n commodityNames
  let suggestP := fun n => suggestHint closeMatch n processNames
  let suggestR := fun n => suggestHint closeMatch n regions
  let processErrors := m.processes.flatMap (fun rawP =>
    let p := normalizeProcessFlows rawP
    (p.inputs.getD []).enum.filterMap (fun iinp =>
      if commodityNames.contains iinp.2.commodity then none
      else some ("Unknown commodity \x27" ++ iinp.2.commodity ++
        "\x27 in process \x27" ++ p.name ++ "\x27 inputs[" ++
        toString iinp.1 ++ "]." ++ suggestC iinp.2.commodity))
    ++ (p.outputs.getD []).enum.filterMap (fun iout =>
      if commodityNames.contains iout.2.commodity then none
      else some ("Unknown commodity \x27" ++ iout.2.commodity ++
        "\x27 in process \x27" ++ p.name ++ "\x27 outputs[" ++
        toString iout.1 ++ "]." ++ suggestC iout.2.commodity)))
  let processWarnings := m.processes.flatMap (fun rawP =>
    let p := normalizeProcessFlows rawP
    (match p.activity_unit with
     | some u =>
        if u ≠ "" ∧ ¬ ENERGY_UNITS.contains u then
          ["Process \x27" ++ p.name ++ "\x27 has activity_unit \x27" ++ u ++
           "\x27 which is not a recognized energy unit. Expected one of: " ++
           String.intercalate ", " (sortedStrings ENERGY_UNITS)]
        else []
     | none => [])
    ++
    (match p.capacity_unit with
     | some u =>
        if u ≠ "" ∧ ¬ POWER_UNITS.contains u then
          ["Process \x27" ++ p.name ++ "\x27 has capacity_unit \x27" ++ u ++
           "\x27 which is not a recognized power unit. Expected one of: " ++
           String.intercalate ", " (sortedStrings POWER_UNITS)]
        else []
     | none => []))
  let constraintErrors := m.constraints.flatMap (fun c =>
    (match c.commodity with
     | some comm =>
        if comm ≠ "" ∧ ¬ commodityNames.contains comm then
          ["Unknown commodity \x27" ++ comm ++ "\x27 in constraint \x27" ++
           c.name ++ "\x27." ++ suggestC comm]
        else []
     | none => [])
    ++ c.processes.filterMap (fun proc =>
      if processNames.contains proc then none
      else some ("Unknown process \x27" ++ proc ++
        "\x27 in constraint \x27" ++ c.name ++ "\x27." ++ suggestP proc)))
  let tradeErrors := m.trade_links.enum.flatMap (fun ilink =>
    let link := ilink.2
    (if regions.contains link.origin then []
     else ["Unknown region \x27" ++ link.origin ++ "\x27 in trade_links[" ++
       toString ilink.1 ++ "] origin." ++ suggestR link.origin])
    ++
    (if regions.contains link.destination then []
     else ["Unknown region \x27" ++ link.destination ++
       "\x27 in trade_links[" ++ toString ilink.1 ++ "] destination." ++
       suggestR link.destination])
    ++
    (if commodityNames.contains link.commodity then []
     else ["Unknown commodity \x27" ++ link.commodity ++
       "\x27 in trade_links[" ++ toString ilink.1 ++ "]." ++
       suggestC link.commodity]))
  let scenarioErrors := m.scenarios.flatMap (fun sc =>
    if sc.commodity ≠ "" then
      if ¬ commodityNames.contains sc.commodity then
        ["Unknown commodity \x27" ++ sc.commodity ++ "\x27 in scenario \x27" ++
         sc.name ++ "\x27." ++ suggestC sc.commodity]
      else
        let commType :=
          ((lookupCommodityLast m.commodities sc.commodity).bind
            (fun c => c.ctype)).getD "energy"
        match sc.stype with
        | some "demand_projection" =>
            if commType ≠ "demand" then
              ["demand_projection scenario \x27" ++ sc.name ++
               "\x27 targets commodity \x27" ++ sc.commodity ++
               "\x27 (type \x27" ++ commType ++ "\x27), expected \x27demand\x27"]
            else []
        | some "commodity_price" =>
            if commType = "demand" then
              ["commodity_price scenario \x27" ++ sc.name ++
               "\x27 targets commodity \x27" ++ sc.commodity ++
               "\x27 (type \x27demand\x27), expected non-demand type"]
            else []
        | _ => []
    else [])
  (processErrors ++ constraintErrors ++ tradeErrors ++ scenarioErrors,
   processWarnings)

/-- The 10 valid primary-commodity-group codes,
{DEM,MAT,NRG,ENV,FIN}×{I,O} (spec §3). -/
def validPCGCodes : List String :=
  ["DEMI", "DEMO", "MATI", "MATO", "NRGI", "NRGO", "ENVI", "ENVO",
   "FINI", "FINO"]

/-- Modelled from the spec: `validate_vedalang` checks the source against
`vedalang.schema.json`, which is not under src/ (only
`src/vedalang/compiler/` is).  Per spec §4.1 and §4.3 the structural
schema is a blocking precondition that reports the first violation, and
every process requires a `primary_commodity_group` drawn from the 10
valid codes or "compilation fails with a validation error naming the
process" and the field.  Only that process-level requirement is
modelled; `none` means the modelled checks pass. -/
def validateVedalang (m : Model) : Option String :=
  m.processes.findSome? (fun p =>
    match p.primary_commodity_group with
    | none => some ("process \x27" ++ p.name ++
        "\x27: \x27primary_commodity_group\x27 is a required property")
    | some g =>
        if validPCGCodes.contains g then none
        else some ("process \x27" ++ p.name ++ "\x27: \x27" ++ g ++
          "\x27 is not a valid primary_commodity_group"))

/-- A `~FI_COMM` row (compiler.py lines 384-394): the explicit unit when
truthy, otherwise the type default. -/
def commodityRow (defaultRegion : String) (c : Commodity) : Row :=
  let ctype := c.ctype.getD "energy"
  let unit :=
    match c.unit with
    | some u => if u ≠ "" then u else getDefaultUnit ctype
    | none => getDefaultUnit ctype
  [("region", Value.s defaultRegion),
   ("csets", Value.s (commodityTypeToCsets ctype)),
   ("commodity", Value.s c.name), ("unit", Value.s unit)]

/-- A `~FI_PROCESS` row (compiler.py lines 399-411);
`process["primary_commodity_group"]` raises `KeyError` when absent
(unreachable after schema validation). -/
def processRow (defaultRegion : String) (rawP : Process) :
    Except CompileError Row :=
  let p := normalizeProcessFlows rawP
  match p.primary_commodity_group with
  | none => Except.error (CompileError.keyError "primary_commodity_group")
  | some pcg => Except.ok
      [("region", Value.s defaultRegion), ("process", Value.s p.name),
       ("description", Value.s (p.description.getD "")),
       ("sets", Value.s (String.intercalate "," p.sets)),
       ("tact", Value.s (p.activity_unit.getD "PJ")),
       ("tcap", Value.s (p.capacity_unit.getD "GW")),
       ("primarycg", Value.s pcg)]

/-- `compile_vedalang_to_tableir` (compiler.py lines 352-669).
`closeMatch` models `difflib.get_close_matches`; `postValidate` models
the two post-compilation output validators (the TableIR jsonschema and
`table_schemas.validate_tableir`), whose data-driven schema files are
not under src/ — its error list is raised as `tableValidation`. -/
def compileVedalangToTableir
    (closeMatch : String → List String → Option String)
    (postValidate : TableIR → List String)
    (source : Source) (validate : Bool) : Except CompileError TableIR := do
  if validate then
    match validateVedalang source.model with
    | some msg => throw (CompileError.structural msg)
    | none => pure ()
  let model := source.model
  if validate then
    let ew := validateCrossReferences closeMatch model
    if ew.1 ≠ [] then throw (CompileError.semantic ew.1 ew.2)
  let regions := model.regions.getD ["REG1"]
  let defaultRegion := String.intercalate "," regions
  let commRows := model.commodities.map (commodityRow defaultRegion)
  let processRows ← model.processes.mapM (processRow defaultRegion)
  let topologyRows := model.processes.flatMap
    (processTopologyRows defaultRegion)
  let modelName := model.name.getD "Model"
  let bookname := modelName.toUpper
  let bookregionsRows := regions.map (fun r =>
    [("bookname", Value.s bookname), ("region", Value.s r)])
  let startyearRows : List Row :=
    [[("value", Value.n ((model.start_year.getD 2020 : ℤ) : ℚ))]]
  let activepdefRows : List Row := [[("value", Value.s "P")]]
  let timeperiodsRows := (model.time_periods.getD [10, 10, 10, 10]).map
    (fun p => [("p", Value.n ((p : ℤ) : ℚ))])
  let currenciesRows : List Row := [[("currency", Value.s "USD")]]
  let modelYears := getModelYears model
  let scenarioFiles := model.scenarios.filterMap (fun sc =>
    let rows := compileScenario sc defaultRegion modelYears
    if rows = [] then none
    else some (FileIR.mk ("SuppXLS/Scen_" ++ sc.name ++ ".xlsx")
      [Sheet.mk "Scenario" [{ tag := "~TFM_DINS-AT", rows := rows }]]))
  let topologyRows := topologyRows ++
    compileDemandProjections model.scenarios defaultRegion modelYears
  let tsPair :=
    match model.timeslices with
    | some ts => compileTimeslices ts regions
    | none => ([], [])
  let syssetsTables : List Table :=
    [{ tag := "~BOOKREGIONS_MAP", rows := bookregionsRows },
     { tag := "~STARTYEAR", rows := startyearRows },
     { tag := "~ACTIVEPDEF", rows := activepdefRows },
     { tag := "~TIMEPERIODS", rows := timeperiodsRows },
     { tag := "~CURRENCIES", rows := currenciesRows }] ++
    (if tsPair.1 ≠ [] then [{ tag := "~TIMESLICES", rows := tsPair.1 }]
     else [])
  let syssettingsSheets :=
    [Sheet.mk "SysSets" syssetsTables,
     Sheet.mk "Commodities" [{ tag := "~FI_COMM", rows := commRows }]] ++
    (if tsPair.2 ≠ [] then
      [Sheet.mk "constants" [{ tag := "~TFM_INS", rows := tsPair.2 }]]
     else [])
  let processFilePath := "VT_" ++ bookname ++ "_" ++ modelName ++ ".xlsx"
  let trade := compileTradeLinks model.trade_links model.commodities
  let processRows := processRows ++ trade.2.1
  let topologyRows := topologyRows ++ trade.2.2
  let constraintFiles := compileConstraints model.constraints defaultRegion
    modelYears
  let tableir : TableIR := ⟨
    [FileIR.mk "SysSettings.xlsx" syssettingsSheets,
     FileIR.mk processFilePath
       [Sheet.mk "Processes"
         [{ tag := "~FI_PROCESS", rows := processRows },
          { tag := "~FI_T", rows := topologyRows }]]] ++
    scenarioFiles ++ trade.1 ++ constraintFiles⟩
  if validate then
    let tableErrors := postValidate tableir
    if tableErrors ≠ [] then throw (CompileError.tableValidation tableErrors)
  pure tableir

/-- Whether a row carries any scalar cost-attribute column of the process
columns (the keys of the `cost_params` side-map). -/
def hasScalarCostCol (p : Process) (row : Row) : Bool :=
  (scalarCostParams p).any (fun kv => (List.lookup kv.1 row).isSome)

/-- A concrete model exercising C7: one declared commodity and one
process with an unresolved input-commodity and an unresolved
output-commodity reference. -/
def modelC7 : Model :=
  { name := some "M", regions := some ["REG1"],
    commodities := [{ name := "ELC", ctype := some "energy" }],
    processes :=
      [{ name := "PP", primary_commodity_group := some "NRGO",
         inputs := some [{ commodity := "NG1", share := none }],
         outputs := some [{ commodity := "ELC2", share := none }] }] }

/-- The C7 model as a source document. -/
def srcC7 : Source := { model := modelC7 }

/-- A concrete source exercising C8: one process definition lacking
`primary_commodity_group`. -/
def srcC8 : Source := { model := { processes := [{ name := "PP_CCGT" }] } }

/-- A concrete process exercising C1: a time-varying efficiency, one
output flow, and one scalar cost attribute (`invcost` = 5). -/
def procC1 : Process :=
  { name := "P1", outputs := some [{ commodity := "ELC", share := none }],
    efficiency := some (.timeVarying [(2020, 1/2)] none),
    invcost := some (.scalar 5) }

/- ------------------------------------------------------------------ -/
/- Theorems.                                                          -/
/- ------------------------------------------------------------------ -/

theorem sortPoints_perm (sv : List (ℤ × ℚ)) : (sortPoints sv).Perm sv :=
  List.perm_insertionSort _ _

theorem mem_sortPoints {sv : List (ℤ × ℚ)} {p : ℤ × ℚ} :
    p ∈ sortPoints sv ↔ p ∈ sv :=
  (sortPoints_perm sv).mem_iff

theorem sortPoints_ne_nil {sv : List (ℤ × ℚ)} {p : ℤ × ℚ} (h : p ∈ sv) :
    sortPoints sv ≠ [] := by
  intro hnil
  have h2 : p ∈ sortPoints sv := mem_sortPoints.mpr h
  rw [hnil] at h2
  cases h2

theorem lookup_filterMap_of_none {f : ℤ → Option ℚ} {ys : List ℤ}
    {ym : ℤ} (h : f ym = none) :
    List.lookup ym (ys.filterMap (fun y => (f y).map (fun v => (y, v)))) =
      none := by
  induction ys with
  | nil => rfl
  | cons y t ih =>
    by_cases hyy : y = ym
    · subst hyy
      simp only [List.filterMap_cons, h, Option.map_none]
      exact ih
    · cases hf : f y with
      | none => simpa [List.filterMap_cons, hf] using ih
      | some v =>
        simp only [List.filterMap_cons, hf, Option.map_some]
        have hb : (ym == y) = false := beq_false_of_ne (fun h => hyy h.symm)
        simp only [List.lookup, hb]
        exact ih

theorem lookup_filterMap_of_mem {f : ℤ → Option ℚ} {ys : List ℤ}
    {ym : ℤ} (hy : ym ∈ ys) :
    List.lookup ym (ys.filterMap (fun y => (f y).map (fun v => (y, v)))) =
      f ym := by
  induction ys with
  | nil => cases hy
  | cons y t ih =>
    by_cases hyy : y = ym
    · subst hyy
      cases hf : f y with
      | none =>
        simp only [List.filterMap_cons, hf, Option.map_none]
        exact lookup_filterMap_of_none hf
      | some v =>
        simp [List.filterMap_cons, hf, List.lookup]
    · have hym : ym ∈ t := by
        rcases List.mem_cons.mp hy with h | h
        · exact absurd h.symm hyy
        · exact h
      cases hf : f y with
      | none => simpa [List.filterMap_cons, hf] using ih hym
      | some v =>
        simp only [List.filterMap_cons, hf, Option.map_some]
        have hb : (ym == y) = false := beq_false_of_ne (fun h => hyy h.symm)
        simp only [List.lookup, hb]
        exact ih hym

theorem find_key_of_nodup {l : List (ℤ × ℚ)} {y : ℤ} {v : ℚ}
    (hnd : (l.map Prod.fst).Nodup) (hm : (y, v) ∈ l) :
    l.find? (fun pv => pv.1 == y) = some (y, v) := by
  induction l with
  | nil => cases hm
  | cons p t ih =>
    rcases List.mem_cons.mp hm with rfl | hm
    · simp [List.find?]
    · have hnd2 : p.1 ∉ t.map Prod.fst ∧ (t.map Prod.fst).Nodup := by
        rw [List.map_cons, List.nodup_cons] at hnd
        exact hnd
      have hp : p.1 ≠ y := by
        intro h
        exact hnd2.1 (h ▸ List.mem_map_of_mem Prod.fst hm)
      have hb : (p.1 == y) = false := beq_false_of_ne hp
      simp only [List.find?, hb]
      exact ih hnd2.2 hm

theorem expandSeriesToYears_eq (sv : List (ℤ × ℚ)) (ys : List ℤ)
    (mode : String) (h : sortPoints sv ≠ []) :
    expandSeriesToYears sv ys mode =
      ys.filterMap (fun ym =>
        (interpValueAt (sortPoints sv) ((sortPoints sv).head h).2
            ((sortPoints sv).getLast h).2
            (mode == "interp_extrap" || mode == "interp_extrap_back")
            (mode == "interp_extrap" || mode == "interp_extrap_forward" ||
              mode == "interp_extrap_eps")
            (mode != "none") ym).map (fun v => (ym, v))) := by
  unfold expandSeriesToYears
  rw [dif_neg h]

/-- C10: for every interpolation mode and every input, the result of
`_expand_series_to_years` has only keys drawn from the model years;
every model year with an exact declared point maps to exactly the
declared value, whatever the mode; and an empty sparse input yields an
empty result. -/
theorem C10_expand_series_invariants :
    (∀ sv ys mode p, p ∈ expandSeriesToYears sv ys mode → p.1 ∈ ys) ∧
    (∀ sv ys mode y v, (sv.map Prod.fst).Nodup → (y, v) ∈ sv →
      y ∈ ys → List.lookup y (expandSeriesToYears sv ys mode) = some v) ∧
    (∀ ys mode, expandSeriesToYears [] ys mode = []) := by
  refine ⟨?_, ?_, ?_⟩
  · intro sv ys mode p hp
    unfold expandSeriesToYears at hp
    by_cases h : sortPoints sv = []
    · rw [dif_pos h] at hp
      cases hp
    · rw [dif_neg h] at hp
      obtain ⟨ym, hym, hmap⟩ := List.mem_filterMap.mp hp
      obtain ⟨v, _, hv⟩ := Option.map_eq_some'.mp hmap
      rw [← hv]
      exact hym
  · intro sv ys mode y v hnd hm hy
    have hne := sortPoints_ne_nil hm
    rw [expandSeriesToYears_eq sv ys mode hne, lookup_filterMap_of_mem hy]
    have hndp : ((sortPoints sv).map Prod.fst).Nodup :=
      (((sortPoints_perm sv).map Prod.fst).nodup_iff).mpr hnd
    have hmp : (y, v) ∈ sortPoints sv := mem_sortPoints.mpr hm
    unfold interpValueAt
    rw [find_key_of_nodup hndp hmp]
  · intro ys mode
    rfl

/-- C10 witness: the parts of the theorem applied at concrete inputs. -/
theorem C10_expand_series_invariants_witness :
    (([((2020 : ℤ), (1 : ℚ)), (2030, 7)].map Prod.fst).Nodup ∧
      ((2030 : ℤ), (7 : ℚ)) ∈ [((2020 : ℤ), (1 : ℚ)), (2030, 7)] ∧
      (2030 : ℤ) ∈ ([2020, 2030] : List ℤ)) ∧
    List.lookup (2030 : ℤ)
      (expandSeriesToYears [(2020, 1), (2030, 7)] [2020, 2030] "none") =
      some 7 :=
  ⟨⟨by decide, by decide, by decide⟩,
   C10_expand_series_invariants.2.1 [(2020, 1), (2030, 7)] [2020, 2030]
     "none" 2030 7 (by decide) (by decide) (by decide)⟩

/-- C3: `_expand_series_to_years` applies exact linear interpolation
between the bracketing declared points — for a target model year with no
exact declared point, bracketed by the nearest declared points
`(y0, v0)` and `(y1, v1)`, the value is
`v0 + (v1 - v0) * (year - y0) / (y1 - y0)` (for every interpolating
mode); and the round-trip example of the spec holds exactly. -/
theorem C3_linear_interpolation :
    (∀ sv ys mode ym y0 v0 y1 v1, mode ≠ "none" → ym ∈ ys →
      (sortPoints sv).find? (fun pv => pv.1 == ym) = none →
      ((sortPoints sv).filter (fun pv => pv.1 < ym)).getLast? =
        some (y0, v0) →
      ((sortPoints sv).filter (fun pv => ym < pv.1)).head? =
        some (y1, v1) →
      List.lookup ym (expandSeriesToYears sv ys mode) =
        some (v0 + (v1 - v0) *
          (((ym : ℚ) - (y0 : ℚ)) / ((y1 : ℚ) - (y0 : ℚ))))) ∧
    expandSeriesToYears [(2020, 100), (2050, 160)] [2020, 2030, 2040, 2050]
      "interp_extrap" = [(2020, 100), (2030, 120), (2040, 140), (2050, 160)]
    := by
  constructor
  · intro sv ys mode ym y0 v0 y1 v1 hmode hym hfind hbefore hafter
    have hne : sortPoints sv ≠ [] := by
      intro h
      rw [h] at hbefore
      cases hbefore
    rw [expandSeriesToYears_eq sv ys mode hne, lookup_filterMap_of_mem hym]
    have hdi : (mode != "none") = true := bne_iff_ne.mpr hmode
    simp [interpValueAt, hfind, hdi, hbefore, hafter]
  · norm_num +decide [expandSeriesToYears, sortPoints, interpValueAt,
      List.insertionSort, List.orderedInsert, List.filterMap, List.filter,
      List.find?, List.getLast?, List.getLast, List.head?, List.head]

/-- C3 witness: the general interpolation formula applied at a concrete
input (year 2035 between declared 2020 and 2050). -/
theorem C3_linear_interpolation_witness :
    List.lookup (2035 : ℤ)
      (expandSeriesToYears [(2020, 10), (2050, 70)] [2035] "interp_only") =
      some (10 + (70 - 10) * ((((2035 : ℤ) : ℚ) - ((2020 : ℤ) : ℚ)) /
        (((2050 : ℤ) : ℚ) - ((2020 : ℤ) : ℚ)))) :=
  C3_linear_interpolation.1 [(2020, 10), (2050, 70)] [2035] "interp_only"
    2035 2020 10 2050 70 (by decide) (by decide) (by decide) (by decide)
    (by decide)

/-- C4: extrapolation is gated by mode — a model year after the last
declared point gets the held last value exactly for the three
forward-extrapolating modes, a model year before the first declared
point gets the held first value exactly for the two
backward-extrapolating modes, and otherwise the year is absent; the
boundary example of the spec, for `interp_only`, holds. -/
theorem C4_extrapolation_gating :
    (∀ sv ys mode ym pl, ym ∈ ys → (sortPoints sv).getLast? = some pl →
      (∀ p ∈ sv, p.1 < ym) →
      List.lookup ym (expandSeriesToYears sv ys mode) =
        if mode = "interp_extrap" ∨ mode = "interp_extrap_forward" ∨
            mode = "interp_extrap_eps"
        then some pl.2 else none) ∧
    (∀ sv ys mode ym p0, ym ∈ ys → (sortPoints sv).head? = some p0 →
      (∀ p ∈ sv, ym < p.1) →
      List.lookup ym (expandSeriesToYears sv ys mode) =
        if mode = "interp_extrap" ∨ mode = "interp_extrap_back"
        then some p0.2 else none) ∧
    expandSeriesToYears [(2020, 100), (2040, 50)] [2020, 2030, 2040, 2050]
      "interp_only" = [(2020, 100), (2030, 75), (2040, 50)] := by
  refine ⟨?_, ?_, by
    norm_num +decide [expandSeriesToYears, sortPoints, interpValueAt,
      List.insertionSort, List.orderedInsert, List.filterMap, List.filter,
      List.find?, List.getLast?, List.getLast, List.head?, List.head]⟩
  · intro sv ys mode ym pl hym hlast hall
    have hne : sortPoints sv ≠ [] := by
      intro h
      rw [h] at hlast
      cases hlast
    rw [expandSeriesToYears_eq sv ys mode hne, lookup_filterMap_of_mem hym]
    have hfind : (sortPoints sv).find? (fun pv => pv.1 == ym) = none := by
      refine List.find?_eq_none.mpr (fun pv hpv => ?_)
      simp only [beq_iff_eq]
      exact ne_of_lt (hall pv (mem_sortPoints.mp hpv))
    have hbef : (sortPoints sv).filter (fun pv => decide (pv.1 < ym)) =
        sortPoints sv :=
      List.filter_eq_self.mpr (fun pv hpv =>
        decide_eq_true (hall pv (mem_sortPoints.mp hpv)))
    have haft : (sortPoints sv).filter (fun pv => decide (ym < pv.1)) = [] :=
      List.filter_eq_nil_iff.mpr (fun pv hpv => by
        simp only [decide_eq_true_eq]
        exact not_lt_of_gt (hall pv (mem_sortPoints.mp hpv)))
    have hlastv : pl = (sortPoints sv).getLast hne := by
      rw [List.getLast?_eq_getLast _ hne] at hlast
      exact (Option.some_injective _ hlast).symm
    by_cases hn : mode = "none"
    · subst hn
      simp [interpValueAt, hfind]
    · have hdi : (mode != "none") = true := bne_iff_ne.mpr hn
      by_cases hf : mode = "interp_extrap" ∨ mode = "interp_extrap_forward" ∨
          mode = "interp_extrap_eps"
      · have hb : (mode == "interp_extrap" || mode == "interp_extrap_forward"
            || mode == "interp_extrap_eps") = true := by
          rcases hf with rfl | rfl | rfl <;> rfl
        simp [interpValueAt, hfind, hdi, hbef, haft, hb, hf,
          List.getLast?_eq_getLast _ hne, hlastv]
      · have hb1 : (mode == "interp_extrap") = false := by
          refine beq_false_of_ne (fun h => hf (Or.inl h))
        have hb2 : (mode == "interp_extrap_forward") = false := by
          refine beq_false_of_ne (fun h => hf (Or.inr (Or.inl h)))
        have hb3 : (mode == "interp_extrap_eps") = false := by
          refine beq_false_of_ne (fun h => hf (Or.inr (Or.inr h)))
        simp [interpValueAt, hfind, hdi, hbef, haft, hb1, hb2, hb3, hf,
          List.getLast?_eq_getLast _ hne]
  · intro sv ys mode ym p0 hym hhead hall
    have hne : sortPoints sv ≠ [] := by
      intro h
      rw [h] at hhead
      cases hhead
    rw [expandSeriesToYears_eq sv ys mode hne, lookup_filterMap_of_mem hym]
    have hfind : (sortPoints sv).find? (fun pv => pv.1 == ym) = none := by
      refine List.find?_eq_none.mpr (fun pv hpv => ?_)
      simp only [beq_iff_eq]
      exact Ne.symm (ne_of_lt (hall pv (mem_sortPoints.mp hpv)))
    have hbef : (sortPoints sv).filter (fun pv => decide (pv.1 < ym)) = [] :=
      List.filter_eq_nil_iff.mpr (fun pv hpv => by
        simp only [decide_eq_true_eq]
        exact not_lt_of_gt (hall pv (mem_sortPoints.mp hpv)))
    have hheadv : p0 = (sortPoints sv).head hne := by
      rw [List.head?_eq_head hne] at hhead
      exact (Option.some_injective _ hhead).symm
    by_cases hn : mode = "none"
    · subst hn
      simp [interpValueAt, hfind]
    · have hdi : (mode != "none") = true := bne_iff_ne.mpr hn
      by_cases hf : mode = "interp_extrap" ∨ mode = "interp_extrap_back"
      · have hb : (mode == "interp_extrap" || mode == "interp_extrap_back")
            = true := by
          rcases hf with rfl | rfl <;> rfl
        simp [interpValueAt, hfind, hdi, hbef, hb, hf, hheadv]
      · have hb1 : (mode == "interp_extrap") = false := by
          refine beq_false_of_ne (fun h => hf (Or.inl h))
        have hb2 : (mode == "interp_extrap_back") = false := by
          refine beq_false_of_ne (fun h => hf (Or.inr h))
        simp [interpValueAt, hfind, hdi, hbef, hb1, hb2, hf]

/-- C4 witness: forward extrapolation denied under `interp_only` and
granted under `interp_extrap`, at concrete inputs. -/
theorem C4_extrapolation_gating_witness :
    List.lookup (2050 : ℤ)
      (expandSeriesToYears [(2020, 100), (2040, 50)] [2050] "interp_only") =
      none ∧
    List.lookup (2050 : ℤ)
      (expandSeriesToYears [(2020, 100), (2040, 50)] [2050] "interp_extrap") =
      some 50 := by
  constructor
  · have h := C4_extrapolation_gating.1 [(2020, 100), (2040, 50)] [2050]
      "interp_only" 2050 (2040, 50) (by decide) (by decide) (by decide)
    simpa using h
  · have h := C4_extrapolation_gating.1 [(2020, 100), (2040, 50)] [2050]
      "interp_extrap" 2050 (2040, 50) (by decide) (by decide) (by decide)
    simpa using h

theorem expandTimeVarying_perm_aux (attr : String) (vals : List (ℤ × ℚ))
    (base : Row) (m : String) (code : ℚ)
    (hlook : List.lookup m INTERPOLATION_CODES = some code)
    (hnone : (m = "none") ↔ (code = -1)) :
    (expandTimeVaryingAttr attr (.timeVarying vals (some m)) base).Perm
      ((if m = "none" then [] else
          [rowSet (rowSet base "year" (.n 0)) (attrColumn attr) (.n code)])
        ++ vals.map (fun yv =>
          rowSet (rowSet base "year" (.n yv.1)) (attrColumn attr)
            (.n yv.2))) := by
  unfold expandTimeVaryingAttr
  simp only [Option.getD_some, hlook]
  by_cases h : code = -1
  · rw [if_neg (by simpa using h), if_pos (hnone.mpr h), List.nil_append,
      List.nil_append]
    exact (sortPoints_perm vals).map _
  · rw [if_pos h, if_neg (fun hm => h (hnone.mp hm))]
    exact List.Perm.append (List.Perm.refl _) ((sortPoints_perm vals).map _)

/-- C2: for a time-varying process attribute, `_expand_time_varying_attr`
emits exactly one row per explicitly declared data year — carrying that
year and the declared value in the canonical column of the attribute — plus,
when the interpolation mode is not `none`, exactly one year=0 sentinel
row carrying the integer code of the mode in the same column; mode `none`
emits no sentinel.  The code table is the claimed one (none=-1,
interp_only=1, interp_extrap_eps=2, interp_extrap=3,
interp_extrap_back=4, interp_extrap_forward=5). -/
theorem C2_time_varying_attr_rows :
    (∀ attr vals m code base, (m, code) ∈ INTERPOLATION_CODES →
      (expandTimeVaryingAttr attr (.timeVarying vals (some m)) base).Perm
        ((if m = "none" then [] else
            [rowSet (rowSet base "year" (.n 0)) (attrColumn attr) (.n code)])
          ++ vals.map (fun yv =>
            rowSet (rowSet base "year" (.n yv.1)) (attrColumn attr)
              (.n yv.2)))) ∧
    List.lookup "none" INTERPOLATION_CODES = some (-1) ∧
    List.lookup "interp_only" INTERPOLATION_CODES = some 1 ∧
    List.lookup "interp_extrap_eps" INTERPOLATION_CODES = some 2 ∧
    List.lookup "interp_extrap" INTERPOLATION_CODES = some 3 ∧
    List.lookup "interp_extrap_back" INTERPOLATION_CODES = some 4 ∧
    List.lookup "interp_extrap_forward" INTERPOLATION_CODES = some 5 := by
  refine ⟨?_, rfl, rfl, rfl, rfl, rfl, rfl⟩
  intro attr vals m code base hm
  simp only [INTERPOLATION_CODES, List.mem_cons, List.not_mem_nil,
    or_false, Prod.mk.injEq] at hm
  rcases hm with ⟨rfl, rfl⟩ | ⟨rfl, rfl⟩ | ⟨rfl, rfl⟩ | ⟨rfl, rfl⟩ |
    ⟨rfl, rfl⟩ | ⟨rfl, rfl⟩ <;>
    exact expandTimeVarying_perm_aux _ _ _ _ _ rfl (by decide)

/-- C2 witness: the theorem applied to a concrete time-varying `invcost`
with mode `interp_only`. -/
theorem C2_time_varying_attr_rows_witness :
    (("interp_only", (1 : ℚ)) ∈ INTERPOLATION_CODES) ∧
    (expandTimeVaryingAttr "invcost"
        (.timeVarying [(2020, 5)] (some "interp_only"))
        [("region", .s "R")]).Perm
      ((if "interp_only" = "none" then [] else
          [rowSet (rowSet [("region", .s "R")] "year" (.n 0))
            (attrColumn "invcost") (.n 1)]) ++
        [((2020 : ℤ), (5 : ℚ))].map (fun yv =>
          rowSet (rowSet [("region", .s "R")] "year" (.n yv.1))
            (attrColumn "invcost") (.n yv.2))) :=
  ⟨by decide,
   C2_time_varying_attr_rows.1 "invcost" [(2020, 5)] "interp_only" 1
     [("region", .s "R")] (by decide)⟩

theorem shareConstraint_ucn (n : String) (comm : Option String)
    (ps : List String) (sh : ℚ) (lt reg : String) (ys : List ℤ) :
    ∀ r ∈ compileShareConstraint n comm ps sh lt reg ys,
      List.lookup "uc_n" r = some (.s n) := by
  intro r hr
  unfold compileShareConstraint at hr
  obtain ⟨y, _, hr⟩ := List.mem_flatMap.mp hr
  rcases List.mem_append.mp hr with hr | hr
  · obtain ⟨proc, _, rfl⟩ := List.mem_map.mp hr
    rfl
  · rcases List.mem_cons.mp hr with rfl | hr
    · rfl
    · rcases List.mem_cons.mp hr with rfl | hr
      · rfl
      · cases hr

theorem append_LO_ne_UP (n : String) : n ++ "_LO" ≠ n ++ "_UP" := by
  intro h
  have hd : (n ++ "_LO").data = (n ++ "_UP").data := by rw [h]
  rw [String.data_append, String.data_append] at hd
  exact absurd (List.append_cancel_left hd) (by decide)

theorem compileActivityShare_eq (n : String) (comm : Option String)
    (c : Constraint) (reg : String) (ys : List ℤ)
    (hps : c.processes ≠ []) :
    compileActivityShare n comm c reg ys =
      (match c.minimum_share with
       | some mn => compileShareConstraint
           (if c.maximum_share.isSome then n ++ "_LO" else n) comm
           c.processes mn "LO" reg ys
       | none => []) ++
      (match c.maximum_share with
       | some mx => compileShareConstraint
           (if c.minimum_share.isSome then n ++ "_UP" else n) comm
           c.processes mx "UP" reg ys
       | none => []) := by
  unfold compileActivityShare
  rw [if_neg hps]

theorem shareConstraint_mem_comprd (nm : String) (comm : Option String)
    (ps : List String) (sh : ℚ) (lt reg : String) (ys : List ℤ) (y : ℤ)
    (hy : y ∈ ys) :
    ∃ r ∈ compileShareConstraint nm comm ps sh lt reg ys,
      List.lookup "uc_comprd" r = some (.n (-sh)) ∧
      List.lookup "year" r = some (.n (y : ℚ)) ∧
      List.lookup "commodity" r = some (optValue comm) ∧
      List.lookup "side" r = some (.s "LHS") := by
  unfold compileShareConstraint
  exact ⟨_, List.mem_flatMap.mpr ⟨y, hy, List.mem_append.mpr
    (Or.inr (List.mem_cons_self _ _))⟩, rfl, rfl, rfl, rfl⟩

theorem shareConstraint_mem_rhs (nm : String) (comm : Option String)
    (ps : List String) (sh : ℚ) (lt reg : String) (ys : List ℤ) (y : ℤ)
    (hy : y ∈ ys) :
    ∃ r ∈ compileShareConstraint nm comm ps sh lt reg ys,
      List.lookup "uc_rhsrt" r = some (.n 0) ∧
      List.lookup "limtype" r = some (.s lt) ∧
      List.lookup "year" r = some (.n (y : ℚ)) := by
  unfold compileShareConstraint
  exact ⟨_, List.mem_flatMap.mpr ⟨y, hy, List.mem_append.mpr
    (Or.inr (List.mem_cons.mpr (Or.inr (List.mem_cons_self _ _))))⟩,
    rfl, rfl, rfl⟩

/-- C6: an `activity_share` constraint with `minimum_share = 0.30` on
commodity ELC yields, for each model year, a commodity-production LHS
row with `uc_comprd` exactly `-0.30` and an RHS row with value 0 and
limit type LO; when both shares are given, two fully independent
constraints named `{name}_LO` and `{name}_UP` are emitted, sharing no
rows. -/
theorem C6_activity_share_sign :
    (∀ (n : String) (ps : List String) (mx : Option ℚ) (reg : String)
        (ys : List ℤ) (y : ℤ), ps ≠ [] → y ∈ ys →
      (∃ r ∈ compileActivityShare n (some "ELC")
          { name := n, ctype := "activity_share", commodity := some "ELC",
            processes := ps, minimum_share := some (3/10),
            maximum_share := mx } reg ys,
        List.lookup "uc_comprd" r = some (.n (-(3/10))) ∧
        List.lookup "year" r = some (.n (y : ℚ)) ∧
        List.lookup "commodity" r = some (.s "ELC") ∧
        List.lookup "side" r = some (.s "LHS")) ∧
      (∃ r ∈ compileActivityShare n (some "ELC")
          { name := n, ctype := "activity_share", commodity := some "ELC",
            processes := ps, minimum_share := some (3/10),
            maximum_share := mx } reg ys,
        List.lookup "uc_rhsrt" r = some (.n 0) ∧
        List.lookup "limtype" r = some (.s "LO") ∧
        List.lookup "year" r = some (.n (y : ℚ)))) ∧
    (∀ (n : String) (comm : Option String) (c : Constraint) (reg : String)
        (ys : List ℤ) (mn mx : ℚ), c.processes ≠ [] →
      c.minimum_share = some mn → c.maximum_share = some mx →
      compileActivityShare n comm c reg ys =
        compileShareConstraint (n ++ "_LO") comm c.processes mn "LO" reg ys
          ++
        compileShareConstraint (n ++ "_UP") comm c.processes mx "UP" reg ys
      ∧
      ∀ r ∈ compileShareConstraint (n ++ "_LO") comm c.processes mn "LO"
          reg ys,
        r ∉ compileShareConstraint (n ++ "_UP") comm c.processes mx "UP"
          reg ys) := by
  constructor
  · intro n ps mx reg ys y hps hy
    have heq := compileActivityShare_eq n (some "ELC")
      { name := n, ctype := "activity_share", commodity := some "ELC",
        processes := ps, minimum_share := some (3/10),
        maximum_share := mx } reg ys hps
    constructor
    · obtain ⟨r, hr, h1, h2, h3, h4⟩ := shareConstraint_mem_comprd
        (if mx.isSome then n ++ "_LO" else n) (some "ELC") ps (3/10) "LO"
        reg ys y hy
      refine ⟨r, ?_, h1, h2, h3, h4⟩
      rw [heq]
      exact List.mem_append_left _ hr
    · obtain ⟨r, hr, h1, h2, h3⟩ := shareConstraint_mem_rhs
        (if mx.isSome then n ++ "_LO" else n) (some "ELC") ps (3/10) "LO"
        reg ys y hy
      refine ⟨r, ?_, h1, h2, h3⟩
      rw [heq]
      exact List.mem_append_left _ hr
  · intro n comm c reg ys mn mx hps hmn hmx
    constructor
    · rw [compileActivityShare_eq n comm c reg ys hps, hmn, hmx]
      simp only [Option.isSome_some, if_pos]
    · intro r hrLO hrUP
      have h1 := shareConstraint_ucn (n ++ "_LO") comm c.processes mn "LO"
        reg ys r hrLO
      have h2 := shareConstraint_ucn (n ++ "_UP") comm c.processes mx "UP"
        reg ys r hrUP
      rw [h1] at h2
      exact append_LO_ne_UP n (Value.s.injEq _ _ ▸
        (Option.some_injective _ h2) ▸ rfl)

/-- C6 witness: the first part of the theorem applied to a concrete
constraint (one process, one model year, no maximum share). -/
theorem C6_activity_share_sign_witness :
    ((["P1"] : List String) ≠ [] ∧ (2020 : ℤ) ∈ ([2020] : List ℤ)) ∧
    ((∃ r ∈ compileActivityShare "C" (some "ELC")
        { name := "C", ctype := "activity_share", commodity := some "ELC",
          processes := ["P1"], minimum_share := some (3/10),
          maximum_share := none } "R" [2020],
      List.lookup "uc_comprd" r = some (.n (-(3/10))) ∧
      List.lookup "year" r = some (.n ((2020 : ℤ) : ℚ)) ∧
      List.lookup "commodity" r = some (.s "ELC") ∧
      List.lookup "side" r = some (.s "LHS")) ∧
     (∃ r ∈ compileActivityShare "C" (some "ELC")
        { name := "C", ctype := "activity_share", commodity := some "ELC",
          processes := ["P1"], minimum_share := some (3/10),
          maximum_share := none } "R" [2020],
      List.lookup "uc_rhsrt" r = some (.n 0) ∧
      List.lookup "limtype" r = some (.s "LO") ∧
      List.lookup "year" r = some (.n ((2020 : ℤ) : ℚ)))) :=
  ⟨⟨by decide, by decide⟩,
   C6_activity_share_sign.1 "C" ["P1"] none "R" [2020] 2020
     (by decide) (by decide)⟩

/-- C5 counterexample: the claim "exactly one topology row with
commodity-out=ELC in the origin region" fails for a bidirectional
REG1→REG2 ELC link that declares an efficiency (0.98): the efficiency
row (compiler.py lines 1051-1057) is a third topology row that also
carries region=REG1 and commodity-out=ELC, so the origin region has two
such rows, not one. -/
theorem C5_counterexample :
    ¬ (((compileTradeLinks
        [{ origin := "REG1", destination := "REG2", commodity := "ELC",
           bidirectional := some true, efficiency := some (49/50) }]
        []).2.2.countP
        (fun r => (List.lookup "commodity-out" r == some (.s "ELC")) &&
          (List.lookup "region" r == some (.s "REG1")))) = 1) ∧
    ((compileTradeLinks
        [{ origin := "REG1", destination := "REG2", commodity := "ELC",
           bidirectional := some true, efficiency := some (49/50) }]
        []).2.2.countP
        (fun r => (List.lookup "commodity-out" r == some (.s "ELC")) &&
          (List.lookup "region" r == some (.s "REG1")))) = 2 := by
  exact ⟨by decide, by decide⟩

/-- C5 (amended): for a bidirectional REG1→REG2 trade link on ELC that
declares no efficiency, the trade-link compiler generates exactly one
process name `T_B_ELC_REG1_REG2_01` (the single matrix cell value),
declares it in both REG1 and REG2 with sets=IRE, and emits exactly one
commodity-out=ELC topology row in the origin region and exactly one
commodity-in=ELC topology row in the destination region; a link with an
efficiency additionally emits one efficiency row carrying
commodity-out=ELC in the origin region (see the counterexample). -/
theorem C5_trade_link_symmetry (comms : List Commodity) :
    ((compileTradeLinks
      [{ origin := "REG1", destination := "REG2", commodity := "ELC",
         bidirectional := some true, efficiency := none }] comms).2.1.map
      (fun r => List.lookup "process" r) =
      [some (.s "T_B_ELC_REG1_REG2_01"),
       some (.s "T_B_ELC_REG1_REG2_01")]) ∧
    ((compileTradeLinks
      [{ origin := "REG1", destination := "REG2", commodity := "ELC",
         bidirectional := some true, efficiency := none }] comms).2.1.map
      (fun r => List.lookup "region" r) =
      [some (.s "REG1"), some (.s "REG2")]) ∧
    ((compileTradeLinks
      [{ origin := "REG1", destination := "REG2", commodity := "ELC",
         bidirectional := some true, efficiency := none }] comms).2.1.map
      (fun r => List.lookup "sets" r) =
      [some (.s "IRE"), some (.s "IRE")]) ∧
    ((compileTradeLinks
      [{ origin := "REG1", destination := "REG2", commodity := "ELC",
         bidirectional := some true, efficiency := none }] comms).2.2 =
      [[("region", .s "REG1"), ("process", .s "T_B_ELC_REG1_REG2_01"),
        ("commodity-out", .s "ELC")],
       [("region", .s "REG2"), ("process", .s "T_B_ELC_REG1_REG2_01"),
        ("commodity-in", .s "ELC")]]) ∧
    ((compileTradeLinks
      [{ origin := "REG1", destination := "REG2", commodity := "ELC",
         bidirectional := some true, efficiency := none }] comms).1.map
      (fun f => f.sheets.map (fun sh =>
        (sh.name, sh.tables.map (fun t => (t.tag, t.rows))))) =
      [[("Bi_ELC", [("~TRADELINKS",
        [[("ELC", .s "REG1"), ("REG2", .s "T_B_ELC_REG1_REG2_01")]])])]]) :=
  ⟨by rfl, by rfl, by rfl, by rfl, by rfl⟩

theorem foldl_inv {α β : Type} (f : β → α → β) (P : β → Prop)
    (Q : α → Prop) (hstep : ∀ b a, P b → Q a → P (f b a)) :
    ∀ (ls : List α) (b : β), P b → (∀ a ∈ ls, Q a) → P (ls.foldl f b) := by
  intro ls
  induction ls with
  | nil => intro b hb _; exact hb
  | cons x xs ih =>
    intro b hb hq
    rw [List.foldl_cons]
    exact ih (f b x) (hstep b x hb (hq x (List.mem_cons_self x xs)))
      (fun a ha => hq a (List.mem_cons_of_mem x ha))

theorem commUnitGet_eq_PJ (comms : List Commodity) (name : String)
    (h : ∀ c ∈ comms, c.name = name → c.unit = none) :
    commUnitGet comms name = "PJ" := by
  unfold commUnitGet
  rcases hl : (comms.filter (fun c => c.name == name)).getLast? with _ | c
  · rw [hl]
  · rw [hl]
    show c.unit.getD "PJ" = "PJ"
    have hcm : c ∈ comms.filter (fun c2 => c2.name == name) := by
      obtain ⟨hne, heq⟩ :=
        List.mem_getLast?_eq_getLast (Option.mem_def.mpr hl)
      rw [heq]
      exact List.getLast_mem hne
    have hcc := List.mem_filter.mp hcm
    have hname : c.name = name := by simpa using hcc.2
    rw [h c hcc.1 hname]
    rfl

theorem prod_key_eq {a b : String × Bool} (h : (a == b) = true) : a = b :=
  eq_of_beq h

theorem groupTradeLinks_aux (links : List TradeLink) :
    ∀ (ls : List TradeLink)
      (acc : List ((String × Bool) × List TradeLink)),
      (∀ l ∈ ls, l ∈ links) →
      (∀ g ∈ acc, ∀ l ∈ g.2,
        l ∈ links ∧ l.commodity = g.1.1 ∧
          l.bidirectional.getD true = g.1.2) →
      ∀ g ∈ ls.foldl (fun acc link =>
          let key := (link.commodity, link.bidirectional.getD true)
          if acc.any (fun g => g.1 == key) then
            acc.map (fun g => if g.1 == key then (g.1, g.2 ++ [link]) else g)
          else acc ++ [(key, [link])]) acc,
      ∀ l ∈ g.2,
        l ∈ links ∧ l.commodity = g.1.1 ∧
          l.bidirectional.getD true = g.1.2 := by
  intro ls
  induction ls with
  | nil => intro acc _ hacc; exact hacc
  | cons x xs ih =>
    intro acc hls hacc
    rw [List.foldl_cons]
    refine ih _ (fun l hl => hls l (List.mem_cons_of_mem x hl)) ?_
    intro g hg
    dsimp only at hg
    by_cases hcond : (acc.any (fun g2 =>
        g2.1 == (x.commodity, x.bidirectional.getD true))) = true
    · rw [if_pos hcond] at hg
      obtain ⟨g0, hg0, hfg⟩ := List.mem_map.mp hg
      by_cases hk : (g0.1 == (x.commodity, x.bidirectional.getD true)) = true
      · rw [if_pos hk] at hfg
        subst hfg
        intro l hl
        rcases List.mem_append.mp hl with hl0 | hlx
        · exact hacc g0 hg0 l hl0
        · rw [List.mem_singleton] at hlx
          subst hlx
          have hkey : g0.1 = (l.commodity, l.bidirectional.getD true) :=
            prod_key_eq hk
          refine ⟨hls l (List.mem_cons_self l xs), ?_, ?_⟩
          · rw [hkey]
          · rw [hkey]
      · rw [if_neg hk] at hfg
        subst hfg
        exact hacc g0 hg0
    · rw [if_neg hcond] at hg
      rcases List.mem_append.mp hg with h1 | h2
      · exact hacc g h1
      · rw [List.mem_singleton] at h2
        subst h2
        intro l hl
        rw [List.mem_singleton] at hl
        subst hl
        exact ⟨hls l (List.mem_cons_self l xs), rfl, rfl⟩

theorem groupTradeLinks_mem (links : List TradeLink) :
    ∀ g ∈ groupTradeLinks links, ∀ l ∈ g.2,
      l ∈ links ∧ l.commodity = g.1.1 ∧
        l.bidirectional.getD true = g.1.2 :=
  groupTradeLinks_aux links links [] (fun _ hl => hl)
    (fun g hg => absurd hg (List.not_mem_nil g))

theorem tradeLinkStep_processRows (comms : List Commodity)
    (links : List TradeLink) (dc : String) (bidir : Bool)
    (commodity : String) (acc : Row × TradeAcc) (link : TradeLink)
    (hlink : link ∈ links) (hc : commodity = link.commodity)
    (hdc : dc = if link.bidirectional.getD true then "B" else "U")
    (hacc : ∀ r ∈ acc.2.processRows, ∃ l, l ∈ links ∧
      List.lookup "process" r = some (Value.s (tradeProcessName
        (if l.bidirectional.getD true then "B" else "U")
        l.commodity l.origin l.destination)) ∧
      List.lookup "tact" r =
        some (Value.s (commUnitGet comms l.commodity))) :
    ∀ r ∈ (tradeLinkStep comms dc bidir commodity acc link).2.processRows,
      ∃ l, l ∈ links ∧
        List.lookup "process" r = some (Value.s (tradeProcessName
          (if l.bidirectional.getD true then "B" else "U")
          l.commodity l.origin l.destination)) ∧
        List.lookup "tact" r =
          some (Value.s (commUnitGet comms l.commodity)) := by
  obtain ⟨lo, ld, lc, lb, leff⟩ := link
  have hc2 : commodity = lc := hc
  have hdc2 : dc = if lb.getD true then "B" else "U" := hdc
  subst hc2
  subst hdc2
  intro r hr
  simp only [tradeLinkStep] at hr
  cases leff
  all_goals
    dsimp only at hr
    by_cases hcont : (acc.2.emitted.contains (tradeProcessName
        (if lb.getD true then "B" else "U") commodity lo ld)) = true
    · rw [if_pos hcont] at hr
      exact hacc r hr
    · rw [if_neg hcont] at hr
      dsimp only at hr
      rcases List.mem_append.mp hr with h12 | hdest
      · rcases List.mem_append.mp h12 with h1 | h2
        · exact hacc r h1
        · rw [List.mem_singleton] at h2
          subst h2
          exact ⟨_, hlink, rfl, rfl⟩
      · cases bidir
        · exact absurd hdest (List.not_mem_nil r)
        · rw [if_pos rfl] at hdest
          rw [List.mem_singleton] at hdest
          subst hdest
          exact ⟨_, hlink, rfl, rfl⟩

theorem tradeOriginStep_processRows (comms : List Commodity)
    (links : List TradeLink) (dc : String) (bidir : Bool)
    (commodity : String) (glinks : List TradeLink)
    (acc : List Row × TradeAcc) (origin : String)
    (hg : ∀ l ∈ glinks, l ∈ links ∧ l.commodity = commodity ∧
      (if l.bidirectional.getD true then "B" else "U") = dc)
    (hacc : ∀ r ∈ acc.2.processRows, ∃ l, l ∈ links ∧
      List.lookup "process" r = some (Value.s (tradeProcessName
        (if l.bidirectional.getD true then "B" else "U")
        l.commodity l.origin l.destination)) ∧
      List.lookup "tact" r =
        some (Value.s (commUnitGet comms l.commodity))) :
    ∀ r ∈ (tradeOriginStep comms dc bidir commodity glinks
        acc origin).2.processRows,
      ∃ l, l ∈ links ∧
        List.lookup "process" r = some (Value.s (tradeProcessName
          (if l.bidirectional.getD true then "B" else "U")
          l.commodity l.origin l.destination)) ∧
        List.lookup "tact" r =
          some (Value.s (commUnitGet comms l.commodity)) := by
  intro r hr
  simp only [tradeOriginStep] at hr
  by_cases hout : glinks.filter (fun l => l.origin == origin) = []
  · rw [if_pos hout] at hr
    exact hacc r hr
  · rw [if_neg hout] at hr
    exact foldl_inv (tradeLinkStep comms dc bidir commodity)
      (fun p => ∀ r2 ∈ p.2.processRows, ∃ l, l ∈ links ∧
        List.lookup "process" r2 = some (Value.s (tradeProcessName
          (if l.bidirectional.getD true then "B" else "U")
          l.commodity l.origin l.destination)) ∧
        List.lookup "tact" r2 =
          some (Value.s (commUnitGet comms l.commodity)))
      (fun l => l ∈ links ∧ l.commodity = commodity ∧
        (if l.bidirectional.getD true then "B" else "U") = dc)
      (fun b a hb ha => tradeLinkStep_processRows comms links dc bidir
        commodity b a ha.1 ha.2.1.symm ha.2.2.symm hb)
      (glinks.filter (fun l => l.origin == origin))
      ([(commodity, Value.s origin)], acc.2) hacc
      (fun a ha => hg a (List.mem_of_mem_filter ha)) r hr

theorem tradeGroupStep_processRows (comms : List Commodity)
    (links : List TradeLink) (acc : List Sheet × TradeAcc)
    (g : (String × Bool) × List TradeLink)
    (hg : ∀ l ∈ g.2, l ∈ links ∧ l.commodity = g.1.1 ∧
      l.bidirectional.getD true = g.1.2)
    (hacc : ∀ r ∈ acc.2.processRows, ∃ l, l ∈ links ∧
      List.lookup "process" r = some (Value.s (tradeProcessName
        (if l.bidirectional.getD true then "B" else "U")
        l.commodity l.origin l.destination)) ∧
      List.lookup "tact" r =
        some (Value.s (commUnitGet comms l.commodity))) :
    ∀ r ∈ (tradeGroupStep comms acc g).2.processRows,
      ∃ l, l ∈ links ∧
        List.lookup "process" r = some (Value.s (tradeProcessName
          (if l.bidirectional.getD true then "B" else "U")
          l.commodity l.origin l.destination)) ∧
        List.lookup "tact" r =
          some (Value.s (commUnitGet comms l.commodity)) := by
  intro r hr
  simp only [tradeGroupStep] at hr
  exact foldl_inv
    (tradeOriginStep comms (if g.1.2 then "B" else "U") g.1.2 g.1.1 g.2)
    (fun p => ∀ r2 ∈ p.2.processRows, ∃ l, l ∈ links ∧
      List.lookup "process" r2 = some (Value.s (tradeProcessName
        (if l.bidirectional.getD true then "B" else "U")
        l.commodity l.origin l.destination)) ∧
      List.lookup "tact" r2 =
        some (Value.s (commUnitGet comms l.commodity)))
    (fun _ => True)
    (fun b a hb _ => tradeOriginStep_processRows comms links
      (if g.1.2 then "B" else "U") g.1.2 g.1.1 g.2 b a
      (fun l hl => ⟨(hg l hl).1, (hg l hl).2.1, by rw [(hg l hl).2.2]⟩) hb)
    (sortedStrings ((g.2.flatMap (fun l => [l.origin, l.destination])).eraseDups))
    ([], acc.2) hacc (fun _ _ => trivial) r hr

theorem compileTradeLinks_processRows (links : List TradeLink)
    (comms : List Commodity) :
    ∀ r ∈ (compileTradeLinks links comms).2.1,
      ∃ l, l ∈ links ∧
        List.lookup "process" r = some (Value.s (tradeProcessName
          (if l.bidirectional.getD true then "B" else "U")
          l.commodity l.origin l.destination)) ∧
        List.lookup "tact" r =
          some (Value.s (commUnitGet comms l.commodity)) := by
  intro r hr
  simp only [compileTradeLinks] at hr
  by_cases hnil : links = []
  · rw [if_pos hnil] at hr
    exact absurd hr (List.not_mem_nil r)
  · rw [if_neg hnil] at hr
    exact foldl_inv (tradeGroupStep comms)
      (fun p => ∀ r2 ∈ p.2.processRows, ∃ l, l ∈ links ∧
        List.lookup "process" r2 = some (Value.s (tradeProcessName
          (if l.bidirectional.getD true then "B" else "U")
          l.commodity l.origin l.destination)) ∧
        List.lookup "tact" r2 =
          some (Value.s (commUnitGet comms l.commodity)))
      (fun g => ∀ l ∈ g.2, l ∈ links ∧ l.commodity = g.1.1 ∧
        l.bidirectional.getD true = g.1.2)
      (fun b a hb ha => tradeGroupStep_processRows comms links b a ha hb)
      (groupTradeLinks links)
      ([], { processRows := [], topologyRows := [], emitted := [] })
      (fun r2 hr2 => absurd hr2 (List.not_mem_nil r2))
      (groupTradeLinks_mem links) r hr

/-- C9: for every list of trade links and every commodity list, each
emitted trade-process declaration row takes its activity unit (tact)
from the dict lookup of `_compile_trade_links`
(`comm_units.get(commodity, "PJ")` over
`{c["name"]: c.get("unit", "PJ")}`), so whenever the commodity of
the row has no explicit unit declared the row carries tact "PJ" —
regardless of the commodity type, even though the type-indexed
`DEFAULT_UNITS` table (used for the `~FI_COMM` row of the same
commodity) defaults emission and material to "Mt". -/
theorem C9_trade_unit_fallback (links : List TradeLink)
    (comms : List Commodity) :
    (∀ r ∈ (compileTradeLinks links comms).2.1,
      ∃ l, l ∈ links ∧
        List.lookup "process" r = some (Value.s (tradeProcessName
          (if l.bidirectional.getD true then "B" else "U")
          l.commodity l.origin l.destination)) ∧
        List.lookup "tact" r =
          some (Value.s (commUnitGet comms l.commodity)) ∧
        ((∀ c ∈ comms, c.name = l.commodity → c.unit = none) →
          List.lookup "tact" r = some (Value.s "PJ"))) ∧
    getDefaultUnit "emission" = "Mt" ∧
    getDefaultUnit "material" = "Mt" ∧
    List.lookup "unit" (commodityRow "REG1"
      { name := "CO2", ctype := some "emission", unit := none }) =
      some (Value.s "Mt") := by
  refine ⟨?_, rfl, rfl, rfl⟩
  intro r hr
  obtain ⟨l, hl, hproc, htact⟩ :=
    compileTradeLinks_processRows links comms r hr
  exact ⟨l, hl, hproc, htact, fun h =>
    htact.trans (by rw [commUnitGet_eq_PJ comms l.commodity h])⟩

theorem C9_trade_unit_fallback_witness :
    List.lookup "tact"
      [("region", Value.s "REG1"),
       ("process", Value.s "T_B_CO2_REG1_REG2_01"),
       ("description", Value.s "Trade CO2 from REG1 to REG2"),
       ("sets", Value.s "IRE"), ("tact", Value.s "PJ"),
       ("tcap", Value.s "")] = some (Value.s "PJ") := by
  obtain ⟨l, hl, hproc, htact, hPJ⟩ :=
    (C9_trade_unit_fallback
      [{ origin := "REG1", destination := "REG2", commodity := "CO2",
         bidirectional := some true, efficiency := none }]
      [{ name := "CO2", ctype := some "emission", unit := none }]).1
      [("region", Value.s "REG1"),
       ("process", Value.s "T_B_CO2_REG1_REG2_01"),
       ("description", Value.s "Trade CO2 from REG1 to REG2"),
       ("sets", Value.s "IRE"), ("tact", Value.s "PJ"),
       ("tcap", Value.s "")] (by decide)
  refine hPJ ?_
  intro c hc _
  rw [List.mem_singleton.mp hc]

theorem compile_semantic_raise (cm : String → List String → Option String)
    (pv : TableIR → List String) (src : Source)
    (hstruct : validateVedalang src.model = none)
    (herr : (validateCrossReferences cm src.model).1 ≠ []) :
    compileVedalangToTableir cm pv src true =
      Except.error (CompileError.semantic
        (validateCrossReferences cm src.model).1
        (validateCrossReferences cm src.model).2) := by
  simp [compileVedalangToTableir, hstruct, herr]
  rfl

/-- C7: cross-reference validation never stops at the first error —
whenever the collected error list is non-empty, compilation raises the
single semantic exception carrying the full error (and warning) lists
and produces no TableIR; and for a model whose one process has one
unresolved input-commodity and one unresolved output-commodity
reference, the error list has exactly 2 entries (whatever the
fuzzy-match oracle and output validator). -/
theorem C7_collect_all_errors :
    (∀ (cm : String → List String → Option String)
        (pv : TableIR → List String) (src : Source),
      validateVedalang src.model = none →
      (validateCrossReferences cm src.model).1 ≠ [] →
      compileVedalangToTableir cm pv src true =
        Except.error (CompileError.semantic
          (validateCrossReferences cm src.model).1
          (validateCrossReferences cm src.model).2)) ∧
    (∀ (cm : String → List String → Option String)
        (pv : TableIR → List String),
      (validateCrossReferences cm modelC7).1.length = 2 ∧
      compileVedalangToTableir cm pv srcC7 true =
        Except.error (CompileError.semantic
          (validateCrossReferences cm modelC7).1
          (validateCrossReferences cm modelC7).2)) := by
  refine ⟨compile_semantic_raise, fun cm pv => ⟨rfl, ?_⟩⟩
  exact compile_semantic_raise cm pv srcC7 rfl (List.cons_ne_nil _ _)

/-- C7 witness: the general part of the theorem applied at the concrete
model, a concrete fuzzy-match oracle and a concrete output validator. -/
theorem C7_collect_all_errors_witness :
    validateVedalang srcC7.model = none ∧
    (validateCrossReferences (fun _ _ => none) srcC7.model).1 ≠ [] ∧
    compileVedalangToTableir (fun _ _ => none) (fun _ => []) srcC7 true =
      Except.error (CompileError.semantic
        (validateCrossReferences (fun _ _ => none) srcC7.model).1
        (validateCrossReferences (fun _ _ => none) srcC7.model).2) :=
  ⟨rfl, List.cons_ne_nil _ _,
   C7_collect_all_errors.1 (fun _ _ => none) (fun _ => []) srcC7 rfl
     (List.cons_ne_nil _ _)⟩

/-- C8: a process definition lacking `primary_commodity_group` makes
compilation fail with a structural validation error (no TableIR), whose
message names both the process and the missing field.
(The general part holds for every structural-validation failure; the
concrete part exhibits the message for process "PP_CCGT".) -/
theorem C8_missing_pcg_fails :
    (∀ (cm : String → List String → Option String)
        (pv : TableIR → List String) (src : Source) (msg : String),
      validateVedalang src.model = some msg →
      compileVedalangToTableir cm pv src true =
        Except.error (CompileError.structural msg)) ∧
    (∀ (cm : String → List String → Option String)
        (pv : TableIR → List String),
      compileVedalangToTableir cm pv srcC8 true =
        Except.error (CompileError.structural
          "process \x27PP_CCGT\x27: \x27primary_commodity_group\x27 is a required property")) ∧
    (∃ a b, "process \x27PP_CCGT\x27: \x27primary_commodity_group\x27 is a required property" =
      a ++ "PP_CCGT" ++ b) ∧
    (∃ a b, "process \x27PP_CCGT\x27: \x27primary_commodity_group\x27 is a required property" =
      a ++ "primary_commodity_group" ++ b) := by
  have hgen : ∀ (cm : String → List String → Option String)
      (pv : TableIR → List String) (src : Source) (msg : String),
      validateVedalang src.model = some msg →
      compileVedalangToTableir cm pv src true =
        Except.error (CompileError.structural msg) := by
    intro cm pv src msg hstruct
    simp [compileVedalangToTableir, hstruct]
    rfl
  refine ⟨hgen, fun cm pv => hgen cm pv srcC8 _ rfl,
    ⟨"process \x27",
     "\x27: \x27primary_commodity_group\x27 is a required property", by rfl⟩,
    ⟨"process \x27PP_CCGT\x27: \x27",
     "\x27 is a required property", by rfl⟩⟩

/-- C8 witness: the general part of the theorem applied at the concrete
source whose process lacks the field. -/
theorem C8_missing_pcg_fails_witness :
    validateVedalang srcC8.model =
      some "process \x27PP_CCGT\x27: \x27primary_commodity_group\x27 is a required property" ∧
    compileVedalangToTableir (fun _ _ => none) (fun _ => []) srcC8 true =
      Except.error (CompileError.structural
        "process \x27PP_CCGT\x27: \x27primary_commodity_group\x27 is a required property") :=
  ⟨rfl,
   C8_missing_pcg_fails.1 (fun _ _ => none) (fun _ => []) srcC8 _ rfl⟩

theorem lookup_none_of_not_any (k : String) :
    ∀ r : Row, r.any (fun kv => kv.1 == k) = false → List.lookup k r = none := by
  intro r
  induction r with
  | nil => intro _; rfl
  | cons x t ih =>
    intro h
    rw [List.any_cons, Bool.or_eq_false_iff] at h
    have hk : (k == x.1) = false := by
      rcases beq_eq_false_iff_ne.mp h.1 with hne
      exact beq_false_of_ne (fun he => hne he.symm)
    obtain ⟨x1, x2⟩ := x
    simp only [List.lookup, hk]
    exact ih h.2

theorem lookup_map_replace_ne (k : String) (v : Value) (c : String)
    (hck : c ≠ k) :
    ∀ r : Row,
      List.lookup c (r.map (fun kv => if kv.1 == k then (k, v) else kv)) =
        List.lookup c r := by
  intro r
  induction r with
  | nil => rfl
  | cons x t ih =>
    obtain ⟨x1, x2⟩ := x
    by_cases hx : x1 = k
    · subst hx
      rw [List.map_cons, if_pos (beq_self_eq_true x1)]
      have hc : (c == x1) = false := beq_false_of_ne hck
      simp only [List.lookup, hc]
      exact ih
    · have hb : (x1 == k) = false := beq_false_of_ne hx
      rw [List.map_cons, if_neg (fun h => Bool.false_ne_true (hb ▸ h))]
      by_cases hcx : c = x1
      · subst hcx
        simp only [List.lookup, beq_self_eq_true]
      · have hc : (c == x1) = false := beq_false_of_ne hcx
        simp only [List.lookup, hc]
        exact ih

theorem lookup_map_replace_self (k : String) (v : Value) :
    ∀ r : Row, r.any (fun kv => kv.1 == k) = true →
      List.lookup k (r.map (fun kv => if kv.1 == k then (k, v) else kv)) =
        some v := by
  intro r
  induction r with
  | nil => intro h; cases h
  | cons x t ih =>
    intro h
    obtain ⟨x1, x2⟩ := x
    by_cases hx : x1 = k
    · subst hx
      rw [List.map_cons, if_pos (beq_self_eq_true x1)]
      simp only [List.lookup, beq_self_eq_true]
    · have hb : (x1 == k) = false := beq_false_of_ne hx
      rw [List.any_cons] at h
      simp only [hb, Bool.false_or] at h
      have hc : (k == x1) = false :=
        beq_false_of_ne (fun he => hx he.symm)
      rw [List.map_cons, if_neg (fun hh => Bool.false_ne_true (hb ▸ hh))]
      simp only [List.lookup, hc]
      exact ih h

theorem lookup_append_row (c : String) (l1 l2 : Row) :
    List.lookup c (l1 ++ l2) =
      (match List.lookup c l1 with
       | some v => some v
       | none => List.lookup c l2) := by
  induction l1 with
  | nil => rfl
  | cons x t ih =>
    obtain ⟨x1, x2⟩ := x
    by_cases hcx : c = x1
    · subst hcx
      simp only [List.cons_append, List.lookup, beq_self_eq_true]
    · have hc : (c == x1) = false := beq_false_of_ne hcx
      simp only [List.cons_append, List.lookup, hc]
      exact ih

theorem rowSet_lookup (r : Row) (k : String) (v : Value) (c : String) :
    List.lookup c (rowSet r k v) =
      if c = k then some v else List.lookup c r := by
  unfold rowSet
  by_cases hany : r.any (fun kv => kv.1 == k) = true
  · rw [if_pos hany]
    by_cases hck : c = k
    · subst hck
      rw [if_pos rfl]
      exact lookup_map_replace_self c v r hany
    · rw [if_neg hck]
      exact lookup_map_replace_ne k v c hck r
  · have hany2 : r.any (fun kv => kv.1 == k) = false :=
      Bool.eq_false_iff.mpr hany
    rw [if_neg hany]
    by_cases hck : c = k
    · subst hck
      rw [if_pos rfl, lookup_append_row,
        lookup_none_of_not_any c r hany2]
      simp [List.lookup]
    · rw [if_neg hck, lookup_append_row]
      have hc : (c == k) = false := beq_false_of_ne hck
      cases hl : List.lookup c r with
      | some w => rfl
      | none => simp [List.lookup, hc]

theorem rowUpdate_lookup_notin (c : String) :
    ∀ (u r : Row), (∀ kv ∈ u, kv.1 ≠ c) →
      List.lookup c (rowUpdate r u) = List.lookup c r := by
  intro u
  induction u with
  | nil => intro r _; rfl
  | cons kv u2 ih =>
    intro r h
    have h1 : kv.1 ≠ c := h kv (List.mem_cons_self _ _)
    have hstep : rowUpdate r (kv :: u2) = rowUpdate (rowSet r kv.1 kv.2) u2 :=
      rfl
    rw [hstep, ih (rowSet r kv.1 kv.2) (fun x hx => h x (List.mem_cons_of_mem _ hx)),
      rowSet_lookup, if_neg (fun he => h1 he.symm)]

theorem rowUpdate_lookup_head (kv : String × Value) (u r : Row)
    (h : ∀ x ∈ u, x.1 ≠ kv.1) :
    List.lookup kv.1 (rowUpdate r (kv :: u)) = some kv.2 := by
  have hstep : rowUpdate r (kv :: u) = rowUpdate (rowSet r kv.1 kv.2) u := rfl
  rw [hstep, rowUpdate_lookup_notin kv.1 u _ h, rowSet_lookup, if_pos rfl]

theorem scalarCostParams_mem {p : Process} {kv : String × Value}
    (hkv : kv ∈ scalarCostParams p) :
    ∃ a, a ∈ costAttrList ∧
      ∃ v, p.attr a = some (.scalar v) ∧ kv = (attrColumn a, Value.n v) := by
  obtain ⟨a, ha, hfa⟩ := List.mem_filterMap.mp hkv
  cases hattr : p.attr a with
  | none => rw [hattr] at hfa; cases hfa
  | some av =>
    cases av with
    | scalar v =>
      rw [hattr] at hfa
      exact ⟨a, ha, v, hattr, (Option.some_injective _ hfa).symm⟩
    | timeVarying vs m => rw [hattr] at hfa; cases hfa

theorem timeVaryingCostAttrs_mem {p : Process} {av : String × AttrValue}
    (hav : av ∈ timeVaryingCostAttrs p) :
    av.1 ∈ costAttrList ∧
      ∃ vs m, p.attr av.1 = some (.timeVarying vs m) ∧
        av.2 = AttrValue.timeVarying vs m := by
  obtain ⟨a, ha, hfa⟩ := List.mem_filterMap.mp hav
  cases hattr : p.attr a with
  | none => rw [hattr] at hfa; cases hfa
  | some av2 =>
    cases av2 with
    | scalar v => rw [hattr] at hfa; cases hfa
    | timeVarying vs m =>
      rw [hattr] at hfa
      have := (Option.some_injective _ hfa).symm
      subst this
      exact ⟨ha, vs, m, hattr, rfl⟩

theorem filterMap_guard_sublist {α β : Type} (f : α → Option β) (g : α → β)
    (h : ∀ a b, f a = some b → b = g a) :
    ∀ l : List α, List.Sublist (l.filterMap f) (l.map g) := by
  intro l
  induction l with
  | nil => simp
  | cons x t ih =>
    rw [List.filterMap_cons, List.map_cons]
    cases hf : f x with
    | none => exact ih.cons _
    | some b =>
      rw [h x b hf]
      exact ih.cons₂ _

theorem scalarCostParams_keys_nodup (p : Process) :
    ((scalarCostParams p).map Prod.fst).Nodup := by
  unfold scalarCostParams
  rw [List.map_filterMap]
  have hg : ∀ a b, Option.map Prod.fst
      (match p.attr a with
       | some (.scalar v) => some (attrColumn a, Value.n v)
       | _ => none) = some b → b = attrColumn a := by
    intro a b hab
    cases hattr : p.attr a with
    | none => rw [hattr] at hab; cases hab
    | some av =>
      cases av with
      | scalar v =>
        rw [hattr] at hab
        simp only [Option.map_some] at hab
        exact (Option.some_injective _ hab).symm
      | timeVarying vs m => rw [hattr] at hab; cases hab
  exact List.Sublist.nodup
    (filterMap_guard_sublist _ attrColumn hg costAttrList) (by decide)

theorem collectBoundParams_mem {p : Process} {b : Row}
    (hb : b ∈ collectBoundParams p) :
    ∃ lt col v, b = [("limtype", Value.s lt), (col, Value.n v)] ∧
      (col = "act_bnd" ∨ col = "cap_bnd" ∨ col = "ncap_bnd") := by
  unfold collectBoundParams at hb
  obtain ⟨spec, hspec, hb⟩ := List.mem_flatMap.mp hb
  have hcol : spec.2.2 = "act_bnd" ∨ spec.2.2 = "cap_bnd" ∨
      spec.2.2 = "ncap_bnd" := by
    rcases List.mem_cons.mp hspec with rfl | hspec
    · exact Or.inl rfl
    rcases List.mem_cons.mp hspec with rfl | hspec
    · exact Or.inr (Or.inl rfl)
    rcases List.mem_cons.mp hspec with rfl | hspec
    · exact Or.inr (Or.inr rfl)
    · cases hspec
  split at hb
  · cases hb
  · split at hb
    · cases hb
    · obtain ⟨kv, _, hkv⟩ := List.mem_filterMap.mp hb
      split at hkv
      · next lt hlt =>
        exact ⟨lt, spec.2.2, kv.2, (Option.some_injective _ hkv).symm, hcol⟩
      · cases hkv

theorem costAttr_cases {a : String} (ha : a ∈ costAttrList) :
    a = "invcost" ∨ a = "fixom" ∨ a = "varom" ∨ a = "life" ∨ a = "cost" := by
  simp only [costAttrList, List.mem_cons, List.not_mem_nil, or_false] at ha
  exact ha

theorem costAttrEff_cases {b : String}
    (hb : b ∈ costAttrList ∨ b = "efficiency") :
    b = "invcost" ∨ b = "fixom" ∨ b = "varom" ∨ b = "life" ∨ b = "cost" ∨
      b = "efficiency" := by
  rcases hb with h | rfl
  · rcases costAttr_cases h with rfl | rfl | rfl | rfl | rfl
    · exact Or.inl rfl
    · exact Or.inr (Or.inl rfl)
    · exact Or.inr (Or.inr (Or.inl rfl))
    · exact Or.inr (Or.inr (Or.inr (Or.inl rfl)))
    · exact Or.inr (Or.inr (Or.inr (Or.inr (Or.inl rfl))))
  · exact Or.inr (Or.inr (Or.inr (Or.inr (Or.inr rfl))))

theorem attrColumn_ne_of_ne {a b : String} (ha : a ∈ costAttrList)
    (hb : b ∈ costAttrList ∨ b = "efficiency") (hne : a ≠ b) :
    attrColumn a ≠ attrColumn b := by
  rcases costAttr_cases ha with rfl | rfl | rfl | rfl | rfl <;>
    rcases costAttrEff_cases hb with rfl | rfl | rfl | rfl | rfl | rfl <;>
    first
      | exact absurd rfl hne
      | decide

theorem costCol_ne_year {a : String} (ha : a ∈ costAttrList) :
    attrColumn a ≠ "year" := by
  rcases costAttr_cases ha with rfl | rfl | rfl | rfl | rfl <;> decide

theorem costCol_not_in_inputRow {a : String} (ha : a ∈ costAttrList)
    (r n : String) (f : Flow) :
    List.lookup (attrColumn a) (inputFlowRow r n f) = none := by
  obtain ⟨fc, fs⟩ := f
  rcases costAttr_cases ha with rfl | rfl | rfl | rfl | rfl <;>
    cases fs <;> rfl

theorem costCol_not_in_outputRow {a : String} (ha : a ∈ costAttrList)
    (r n : String) (f : Flow) :
    List.lookup (attrColumn a) (outputFlowRow r n f) = none := by
  obtain ⟨fc, fs⟩ := f
  rcases costAttr_cases ha with rfl | rfl | rfl | rfl | rfl <;>
    cases fs <;> rfl

theorem costCol_not_in_baseRow {a : String} (ha : a ∈ costAttrList)
    (r n : String) (co : Option String) :
    List.lookup (attrColumn a)
      ([("region", Value.s r), ("process", Value.s n)] ++
        (match co with
         | some c => [("commodity-out", Value.s c)]
         | none => [])) = none := by
  rcases costAttr_cases ha with rfl | rfl | rfl | rfl | rfl <;>
    cases co <;> rfl

theorem costCol_not_in_procRow {a : String} (ha : a ∈ costAttrList)
    (r n : String) :
    List.lookup (attrColumn a)
      ([("region", Value.s r), ("process", Value.s n)] : Row) = none := by
  rcases costAttr_cases ha with rfl | rfl | rfl | rfl | rfl <;> rfl

theorem limtype_ne_costCol {a : String} (ha : a ∈ costAttrList) :
    ("limtype" : String) ≠ attrColumn a := by
  rcases costAttr_cases ha with rfl | rfl | rfl | rfl | rfl <;> decide

theorem boundCol_ne_costCol {a col : String} (ha : a ∈ costAttrList)
    (hcol : col = "act_bnd" ∨ col = "cap_bnd" ∨ col = "ncap_bnd") :
    col ≠ attrColumn a := by
  rcases hcol with rfl | rfl | rfl <;>
    rcases costAttr_cases ha with rfl | rfl | rfl | rfl | rfl <;> decide

theorem costCol_lookup_rowUpdate_bound {a : String} (ha : a ∈ costAttrList)
    (row : Row) {p : Process} {b : Row} (hb : b ∈ collectBoundParams p) :
    List.lookup (attrColumn a) (rowUpdate row b) =
      List.lookup (attrColumn a) row := by
  obtain ⟨lt, col, v, rfl, hcol⟩ := collectBoundParams_mem hb
  refine rowUpdate_lookup_notin _ _ _ ?_
  intro kv hkv
  rcases List.mem_cons.mp hkv with rfl | hkv
  · exact limtype_ne_costCol ha
  rcases List.mem_cons.mp hkv with rfl | hkv
  · exact boundCol_ne_costCol ha hcol
  · cases hkv

theorem costCol_not_in_tvRow {a a2 : String}
    (hne : attrColumn a ≠ attrColumn a2) (hya : attrColumn a ≠ "year")
    (v : AttrValue) (base : Row)
    (hbase : List.lookup (attrColumn a) base = none) :
    ∀ row ∈ expandTimeVaryingAttr a2 v base,
      List.lookup (attrColumn a) row = none := by
  intro row hrow
  unfold expandTimeVaryingAttr at hrow
  cases v with
  | scalar w =>
    rcases List.mem_singleton.mp hrow with rfl
    rw [rowSet_lookup, if_neg hne]
    exact hbase
  | timeVarying vs m =>
    rcases List.mem_append.mp hrow with hrow | hrow
    · split at hrow
      · rcases List.mem_singleton.mp hrow with rfl
        rw [rowSet_lookup, if_neg hne, rowSet_lookup, if_neg hya]
        exact hbase
      · cases hrow
    · obtain ⟨yv, _, rfl⟩ := List.mem_map.mp hrow
      rw [rowSet_lookup, if_neg hne, rowSet_lookup, if_neg hya]
      exact hbase

theorem list_any_congr {α : Type} {l : List α} {p q : α → Bool}
    (h : ∀ a ∈ l, p a = q a) : l.any p = l.any q := by
  induction l with
  | nil => rfl
  | cons x t ih =>
    rw [List.any_cons, List.any_cons, h x (List.mem_cons_self _ _),
      ih (fun a ha => h a (List.mem_cons_of_mem _ ha))]

theorem normalize_eq_self (p : Process) (hni : p.input = none)
    (hno : p.output = none) : normalizeProcessFlows p = p := by
  unfold normalizeProcessFlows
  cases hpi : p.inputs <;> cases hpo : p.outputs <;>
    simp [hni, hno, hpi, hpo]

theorem hasCostCol_false_of_all_none (p : Process) (row : Row)
    (h : ∀ a, a ∈ costAttrList → (∃ v, p.attr a = some (.scalar v)) →
      List.lookup (attrColumn a) row = none) :
    hasScalarCostCol p row = false := by
  unfold hasScalarCostCol
  rw [List.any_eq_false]
  intro kv hkv
  obtain ⟨a, ha, v, hv, rfl⟩ := scalarCostParams_mem hkv
  rw [h a ha ⟨v, hv⟩]
  simp

theorem hasCostCol_rowUpdate_cp (p : Process) (row : Row)
    (hcp : scalarCostParams p ≠ []) :
    hasScalarCostCol p (rowUpdate row (scalarCostParams p)) = true := by
  unfold hasScalarCostCol
  obtain ⟨kv0, rest, hcons⟩ : ∃ kv0 rest, scalarCostParams p = kv0 :: rest := by
    cases h : scalarCostParams p with
    | nil => exact absurd h hcp
    | cons a b => exact ⟨a, b, rfl⟩
  have hnodup := scalarCostParams_keys_nodup p
  rw [hcons, List.map_cons, List.nodup_cons] at hnodup
  have hlk : List.lookup kv0.1 (rowUpdate row (kv0 :: rest)) = some kv0.2 := by
    refine rowUpdate_lookup_head kv0 rest row ?_
    intro x hx hxe
    exact hnodup.1 (hxe ▸ List.mem_map_of_mem Prod.fst hx)
  rw [hcons, List.any_cons, hlk]
  simp

theorem hasCostCol_rowUpdate_bound (p : Process) (row : Row) {b : Row}
    (hb : b ∈ collectBoundParams p) :
    hasScalarCostCol p (rowUpdate row b) = hasScalarCostCol p row := by
  unfold hasScalarCostCol
  refine list_any_congr (fun kv hkv => ?_)
  obtain ⟨a, ha, v, _, rfl⟩ := scalarCostParams_mem hkv
  rw [costCol_lookup_rowUpdate_bound ha row hb]

theorem filter_costCol_inputRows (p : Process) (r n : String)
    (l : List Flow) :
    (l.map (inputFlowRow r n)).filter (hasScalarCostCol p) = [] := by
  refine List.filter_eq_nil_iff.mpr (fun row hrow h => ?_)
  obtain ⟨f, _, rfl⟩ := List.mem_map.mp hrow
  rw [hasCostCol_false_of_all_none p _
    (fun a ha _ => costCol_not_in_inputRow ha r n f)] at h
  exact Bool.false_ne_true h

theorem filter_costCol_boundRows (p : Process) (r n : String)
    (co : Option String) (bounds : List Row)
    (hbs : ∀ b ∈ bounds, b ∈ collectBoundParams p) :
    (bounds.map (fun b => rowUpdate
      ([("region", Value.s r), ("process", Value.s n)] ++
        (match co with
         | some c => [("commodity-out", Value.s c)]
         | none => [])) b)).filter (hasScalarCostCol p) = [] := by
  refine List.filter_eq_nil_iff.mpr (fun row hrow h => ?_)
  obtain ⟨b, hb, rfl⟩ := List.mem_map.mp hrow
  rw [hasCostCol_rowUpdate_bound p _ (hbs b hb),
    hasCostCol_false_of_all_none p _
      (fun a ha _ => costCol_not_in_baseRow ha r n co)] at h
  exact Bool.false_ne_true h

theorem filter_costCol_tvRows (p : Process) (r n : String)
    (co : Option String) (tvs : List (String × AttrValue))
    (htv : ∀ av ∈ tvs, (av.1 ∈ costAttrList ∨ av.1 = "efficiency") ∧
      ∀ a2 ∈ costAttrList, (∃ v, p.attr a2 = some (.scalar v)) →
        a2 ≠ av.1) :
    (tvs.flatMap (fun av => expandTimeVaryingAttr av.1 av.2
      ([("region", Value.s r), ("process", Value.s n)] ++
        (match co with
         | some c => [("commodity-out", Value.s c)]
         | none => [])))).filter (hasScalarCostCol p) = [] := by
  refine List.filter_eq_nil_iff.mpr (fun row hrow h => ?_)
  obtain ⟨av, hav, hrow⟩ := List.mem_flatMap.mp hrow
  rw [hasCostCol_false_of_all_none p row ?_] at h
  · exact Bool.false_ne_true h
  · intro a ha hs
    exact costCol_not_in_tvRow
      (attrColumn_ne_of_ne ha (htv av hav).1 ((htv av hav).2 a ha hs))
      (costCol_ne_year ha) av.2 _
      (costCol_not_in_baseRow ha r n co) row hrow

theorem find?_append_none {α : Type} {l1 : List α} {q : α → Bool}
    (h : l1.find? q = none) (l2 : List α) :
    (l1 ++ l2).find? q = l2.find? q := by
  induction l1 with
  | nil => rfl
  | cons x t ih =>
    have hx : q x = false := by
      cases hq : q x with
      | false => rfl
      | true => rw [List.find?_cons_of_pos _ hq] at h; cases h
    have hx2 : ¬ q x = true := by rw [hx]; exact Bool.false_ne_true
    rw [List.find?_cons_of_neg _ hx2] at h
    rw [List.cons_append, List.find?_cons_of_neg _ hx2]
    exact ih h

theorem lookup_rowUpdate_bound_ne (s : String) (hlim : s ≠ "limtype")
    (hact : s ≠ "act_bnd") (hcap : s ≠ "cap_bnd") (hncap : s ≠ "ncap_bnd")
    (row : Row) {p : Process} {b : Row} (hb : b ∈ collectBoundParams p) :
    List.lookup s (rowUpdate row b) = List.lookup s row := by
  obtain ⟨lt, col, v, rfl, hcol⟩ := collectBoundParams_mem hb
  refine rowUpdate_lookup_notin _ _ _ ?_
  intro kv hkv
  rcases List.mem_cons.mp hkv with rfl | hkv
  · exact fun he => hlim he.symm
  rcases List.mem_cons.mp hkv with rfl | hkv
  · rcases hcol with rfl | rfl | rfl
    · exact fun he => hact he.symm
    · exact fun he => hcap he.symm
    · exact fun he => hncap he.symm
  · cases hkv

theorem lookup_rowUpdate_cp_ne (s : String)
    (h : ∀ a ∈ costAttrList, s ≠ attrColumn a) (p : Process) (row : Row) :
    List.lookup s (rowUpdate row (scalarCostParams p)) =
      List.lookup s row := by
  refine rowUpdate_lookup_notin _ _ _ ?_
  intro kv hkv
  obtain ⟨a, ha, v, _, rfl⟩ := scalarCostParams_mem hkv
  exact fun he => h a ha he.symm

theorem commodity_out_ne_costCol {a : String} (ha : a ∈ costAttrList) :
    ("commodity-out" : String) ≠ attrColumn a := by
  rcases costAttr_cases ha with rfl | rfl | rfl | rfl | rfl <;> decide

theorem eff_ne_costCol {a : String} (ha : a ∈ costAttrList) :
    ("eff" : String) ≠ attrColumn a := by
  rcases costAttr_cases ha with rfl | rfl | rfl | rfl | rfl <;> decide

theorem lookup_commodity_out_inputRow (r n : String) (f : Flow) :
    List.lookup "commodity-out" (inputFlowRow r n f) = none := by
  obtain ⟨fc, fs⟩ := f
  cases fs <;> rfl

theorem lookup_commodity_out_outputRow (r n : String) (f : Flow) :
    List.lookup "commodity-out" (outputFlowRow r n f) =
      some (Value.s f.commodity) := by
  obtain ⟨fc, fs⟩ := f
  cases fs <;> rfl

theorem hasCostCol_scalarEffRow (p : Process) (r n : String) (e : ℚ)
    (hcp : scalarCostParams p ≠ []) :
    hasScalarCostCol p
      (scalarEffRow r n e (scalarCostParams p) (collectBoundParams p)) =
      true := by
  unfold scalarEffRow
  cases hb : collectBoundParams p with
  | nil => exact hasCostCol_rowUpdate_cp p _ hcp
  | cons b bs =>
    rw [hasCostCol_rowUpdate_bound p _ (hb ▸ List.mem_cons_self b bs)]
    exact hasCostCol_rowUpdate_cp p _ hcp

theorem hasCostCol_tvEffCostRow (p : Process) (r n : String)
    (hcp : scalarCostParams p ≠ []) :
    hasScalarCostCol p
      (timeVaryingEffCostRow r n (scalarCostParams p)
        (collectBoundParams p)) = true := by
  unfold timeVaryingEffCostRow
  cases hb : collectBoundParams p with
  | nil => exact hasCostCol_rowUpdate_cp p _ hcp
  | cons b bs =>
    rw [hasCostCol_rowUpdate_bound p _ (hb ▸ List.mem_cons_self b bs)]
    exact hasCostCol_rowUpdate_cp p _ hcp

theorem scalarEffRow_lookup_eff (p : Process) (r n : String) (e : ℚ) :
    List.lookup "eff"
      (scalarEffRow r n e (scalarCostParams p) (collectBoundParams p)) =
      some (Value.n e) := by
  unfold scalarEffRow
  have hcp : List.lookup "eff"
      (rowUpdate [("region", Value.s r), ("process", Value.s n),
        ("eff", Value.n e)] (scalarCostParams p)) = some (Value.n e) := by
    rw [lookup_rowUpdate_cp_ne "eff" (fun a ha => eff_ne_costCol ha) p]
    rfl
  cases hb : collectBoundParams p with
  | nil => exact hcp
  | cons b bs =>
    rw [lookup_rowUpdate_bound_ne "eff" (by decide) (by decide) (by decide)
      (by decide) _ (hb ▸ List.mem_cons_self b bs)]
    exact hcp

theorem tvEffCostRow_lookup_ne (p : Process) (r n s : String)
    (hreg : s ≠ "region") (hproc : s ≠ "process")
    (hlim : s ≠ "limtype") (hact : s ≠ "act_bnd") (hcap : s ≠ "cap_bnd")
    (hncap : s ≠ "ncap_bnd")
    (hcols : ∀ a ∈ costAttrList, s ≠ attrColumn a) :
    List.lookup s
      (timeVaryingEffCostRow r n (scalarCostParams p)
        (collectBoundParams p)) = none := by
  unfold timeVaryingEffCostRow
  have hbase : List.lookup s
      ([("region", Value.s r), ("process", Value.s n)] : Row) = none := by
    have h1 : (s == "region") = false := beq_false_of_ne hreg
    have h2 : (s == "process") = false := beq_false_of_ne hproc
    simp only [List.lookup, h1, h2]
  have hcp : List.lookup s
      (rowUpdate [("region", Value.s r), ("process", Value.s n)]
        (scalarCostParams p)) = none := by
    rw [lookup_rowUpdate_cp_ne s hcols p]
    exact hbase
  cases hb : collectBoundParams p with
  | nil => exact hcp
  | cons b bs =>
    rw [lookup_rowUpdate_bound_ne s hlim hact hcap hncap _
      (hb ▸ List.mem_cons_self b bs)]
    exact hcp

theorem processTopologyRows_unfold (r : String) (p : Process)
    (hnorm : normalizeProcessFlows p = p) :
    processTopologyRows r p =
      (p.inputs.getD []).map (inputFlowRow r p.name) ++
      ((p.outputs.getD []).enum.map (fun iout =>
        if iout.1 = 0 ∧ p.efficiency = none ∧ scalarCostParams p ≠ [] then
          rowUpdate (outputFlowRow r p.name iout.2) (scalarCostParams p)
        else outputFlowRow r p.name iout.2)) ++
      (match p.efficiency with
       | some (.timeVarying _ _) =>
          if scalarCostParams p ≠ [] then
            [timeVaryingEffCostRow r p.name (scalarCostParams p)
              (collectBoundParams p)]
          else []
       | some (.scalar e) =>
          [scalarEffRow r p.name e (scalarCostParams p)
            (collectBoundParams p)]
       | none => []) ++
      ((match p.efficiency with
        | some (.timeVarying _ _) =>
           if scalarCostParams p ≠ [] then (collectBoundParams p).tail
           else collectBoundParams p
        | some (.scalar _) => (collectBoundParams p).tail
        | none => collectBoundParams p).map (fun b =>
          rowUpdate ([("region", Value.s r), ("process", Value.s p.name)] ++
            (match ((p.outputs.getD []).head?).map
                (fun f : Flow => f.commodity) with
             | some c => [("commodity-out", Value.s c)]
             | none => [])) b)) ++
      ((timeVaryingCostAttrs p ++
        (match p.efficiency with
         | some (.timeVarying vs m) =>
            [("efficiency", AttrValue.timeVarying vs m)]
         | _ => [])).flatMap (fun av =>
          expandTimeVaryingAttr av.1 av.2
            ([("region", Value.s r), ("process", Value.s p.name)] ++
              (match ((p.outputs.getD []).head?).map
                  (fun f : Flow => f.commodity) with
               | some c => [("commodity-out", Value.s c)]
               | none => [])))) := by
  unfold processTopologyRows
  rw [hnorm]
  cases heff : p.efficiency with
  | none => simp only [heff]
  | some av =>
    cases av with
    | scalar e => simp only [heff]
    | timeVarying vs m =>
      by_cases hcp : scalarCostParams p ≠ []
      · simp only [heff, if_pos hcp]
      · simp only [heff, if_neg hcp]

/-- C1 counterexample: for `procC1` — a process whose `efficiency` is a
time-varying spec (hence no scalar efficiency), with one output flow and
one scalar cost attribute (`invcost`) — the in-particular case of the claim
is false: a first output-flow row exists, but it carries no `ncap_cost`;
the scalar cost attribute sits on a separate process-only row with no
commodity reference (compiler.py lines 472-481). -/
theorem C1_counterexample :
    ((processTopologyRows "REG1" procC1).find?
      (fun row => (List.lookup "commodity-out" row).isSome)).isSome =
      true ∧
    ((processTopologyRows "REG1" procC1).find?
      (fun row => (List.lookup "commodity-out" row).isSome)).bind
      (fun row => List.lookup "ncap_cost" row) = none ∧
    ((processTopologyRows "REG1" procC1).filter
      (fun row => (List.lookup "ncap_cost" row).isSome)).map
      (fun row => (List.lookup "commodity-out" row,
        List.lookup "commodity-in" row)) = [(none, none)] :=
  ⟨by decide, by decide, by decide⟩

/-- C1 (amended): the scalar cost/technical attributes of a process are
merged into exactly one topology row (exactly one emitted row carries
any scalar-cost column), and which row depends on the `efficiency` key:
absent entirely → the first output-flow row (which is also the first
emitted row carrying `commodity-out`); scalar → the freshly emitted
efficiency row carrying the `eff` value alongside the first applicable
bound; a time-varying spec → a freshly emitted process-only row (no
commodity reference, no `eff`) alongside the first applicable bound.
(Stated for normalized processes — no `input`/`output` shorthand — with
at least one scalar cost attribute.) -/
theorem C1_scalar_cost_merge (r : String) (p : Process)
    (hni : p.input = none) (hno : p.output = none)
    (hcp : scalarCostParams p ≠ []) :
    (∀ o os, p.efficiency = none → p.outputs = some (o :: os) →
      (processTopologyRows r p).filter (hasScalarCostCol p) =
        [rowUpdate (outputFlowRow r p.name o) (scalarCostParams p)] ∧
      (processTopologyRows r p).find?
          (fun row => (List.lookup "commodity-out" row).isSome) =
        some (rowUpdate (outputFlowRow r p.name o) (scalarCostParams p))) ∧
    (∀ e, p.efficiency = some (.scalar e) →
      (processTopologyRows r p).filter (hasScalarCostCol p) =
        [scalarEffRow r p.name e (scalarCostParams p)
          (collectBoundParams p)] ∧
      List.lookup "eff" (scalarEffRow r p.name e (scalarCostParams p)
        (collectBoundParams p)) = some (.n e)) ∧
    (∀ vs m, p.efficiency = some (.timeVarying vs m) →
      (processTopologyRows r p).filter (hasScalarCostCol p) =
        [timeVaryingEffCostRow r p.name (scalarCostParams p)
          (collectBoundParams p)] ∧
      List.lookup "commodity-out" (timeVaryingEffCostRow r p.name
        (scalarCostParams p) (collectBoundParams p)) = none ∧
      List.lookup "eff" (timeVaryingEffCostRow r p.name
        (scalarCostParams p) (collectBoundParams p)) = none) := by
  have hnorm := normalize_eq_self p hni hno
  have hunfold := processTopologyRows_unfold r p hnorm
  have htvc : ∀ av ∈ timeVaryingCostAttrs p,
      (av.1 ∈ costAttrList ∨ av.1 = "efficiency") ∧
      ∀ a2 ∈ costAttrList, (∃ v, p.attr a2 = some (.scalar v)) →
        a2 ≠ av.1 := by
    intro av hav
    obtain ⟨hmem, vs2, m2, hattr, _⟩ := timeVaryingCostAttrs_mem hav
    refine ⟨Or.inl hmem, ?_⟩
    rintro a2 _ ⟨v, hv⟩ he
    rw [he, hattr] at hv
    exact AttrValue.noConfusion (Option.some_injective _ hv)
  have houtplain : ∀ (outs : List Flow) (eo : Option AttrValue),
      eo ≠ none →
      ((outs.enum.map (fun iout =>
        if iout.1 = 0 ∧ eo = none ∧ scalarCostParams p ≠ [] then
          rowUpdate (outputFlowRow r p.name iout.2) (scalarCostParams p)
        else outputFlowRow r p.name iout.2)).filter
          (hasScalarCostCol p)) = [] := by
    intro outs eo hne
    refine List.filter_eq_nil_iff.mpr (fun row hrow h => ?_)
    obtain ⟨iout, _, rfl⟩ := List.mem_map.mp hrow
    rw [if_neg (fun hc => hne hc.2.1)] at h
    rw [hasCostCol_false_of_all_none p _
      (fun a ha _ => costCol_not_in_outputRow ha r p.name iout.2)] at h
    exact Bool.false_ne_true h
  refine ⟨?_, ?_, ?_⟩
  · -- no efficiency at all: merge into the first output-flow row
    intro o os heff houts
    have hmerged : hasScalarCostCol p
        (rowUpdate (outputFlowRow r p.name o) (scalarCostParams p)) =
        true := hasCostCol_rowUpdate_cp p _ hcp
    constructor
    · rw [hunfold, heff, houts, Option.getD_some]
      rw [List.filter_append, List.filter_append, List.filter_append,
        List.filter_append, filter_costCol_inputRows]
      rw [filter_costCol_tvRows p r p.name _ _ (by
        intro av hav
        rcases List.mem_append.mp hav with hav2 | hav2
        · exact htvc av hav2
        · cases hav2)]
      rw [filter_costCol_boundRows p r p.name _ _ (fun b hb => hb)]
      rw [List.enum_cons, List.map_cons]
      rw [if_pos (show ((0 : ℕ), o).1 = 0 ∧
        (none : Option AttrValue) = none ∧ scalarCostParams p ≠ []
        from ⟨rfl, rfl, hcp⟩)]
      rw [List.filter_cons, if_pos hmerged]
      have hrest : ((List.enumFrom 1 os).map (fun iout =>
          if iout.1 = 0 ∧ (none : Option AttrValue) = none ∧
              scalarCostParams p ≠ []
          then rowUpdate (outputFlowRow r p.name iout.2)
            (scalarCostParams p)
          else outputFlowRow r p.name iout.2)).filter
            (hasScalarCostCol p) = [] := by
        refine List.filter_eq_nil_iff.mpr (fun row hrow h => ?_)
        obtain ⟨iout, hiout, rfl⟩ := List.mem_map.mp hrow
        have hi1 : iout.1 ≠ 0 := by
          obtain ⟨i2, x2⟩ := iout
          have := (List.mem_enumFrom hiout).1
          simp only at this ⊢
          omega
        rw [if_neg (fun hc => hi1 hc.1)] at h
        rw [hasCostCol_false_of_all_none p _
          (fun a ha _ =>
            costCol_not_in_outputRow ha r p.name iout.2)] at h
        exact Bool.false_ne_true h
      rw [hrest]
      simp
    · rw [hunfold, heff, houts, Option.getD_some]
      simp only [List.append_assoc]
      rw [find?_append_none (List.find?_eq_none.mpr (by
        intro row hrow
        obtain ⟨f, _, rfl⟩ := List.mem_map.mp hrow
        rw [lookup_commodity_out_inputRow]
        simp))]
      rw [List.enum_cons, List.map_cons, List.cons_append]
      rw [if_pos (⟨rfl, trivial, hcp⟩ :
        ((0, o).1 = 0 ∧ True ∧ scalarCostParams p ≠ []))]
      refine List.find?_cons_of_pos _ ?_
      rw [lookup_rowUpdate_cp_ne "commodity-out"
        (fun a ha => commodity_out_ne_costCol ha) p,
        lookup_commodity_out_outputRow]
      rfl
  · -- scalar efficiency: merge into the efficiency row
    intro e heff
    constructor
    · rw [hunfold, heff]
      rw [List.filter_append, List.filter_append, List.filter_append,
        List.filter_append, filter_costCol_inputRows]
      rw [filter_costCol_tvRows p r p.name _ _ (by
        intro av hav
        rcases List.mem_append.mp hav with hav2 | hav2
        · exact htvc av hav2
        · cases hav2)]
      rw [filter_costCol_boundRows p r p.name _ _ (fun b hb =>
        List.mem_of_mem_tail hb)]
      rw [houtplain _ _ (fun h => Option.noConfusion h)]
      rw [List.filter_cons, if_pos (hasCostCol_scalarEffRow p r p.name e hcp)]
      simp
    · exact scalarEffRow_lookup_eff p r p.name e
  · -- time-varying efficiency: the cost params get their own base row
    intro vs m heff
    refine ⟨?_, tvEffCostRow_lookup_ne p r p.name "commodity-out"
        (by decide) (by decide) (by decide) (by decide) (by decide)
        (by decide) (fun a ha => commodity_out_ne_costCol ha),
      tvEffCostRow_lookup_ne p r p.name "eff" (by decide) (by decide)
        (by decide) (by decide) (by decide) (by decide)
        (fun a ha => eff_ne_costCol ha)⟩
    rw [hunfold, heff, if_pos hcp, if_pos hcp]
    rw [List.filter_append, List.filter_append, List.filter_append,
      List.filter_append, filter_costCol_inputRows]
    rw [filter_costCol_tvRows p r p.name _ _ (by
      intro av hav
      rcases List.mem_append.mp hav with hav2 | hav2
      · exact htvc av hav2
      · rcases List.mem_singleton.mp hav2 with rfl
        refine ⟨Or.inr rfl, ?_⟩
        rintro a2 _ ⟨v, hv⟩ he
        rw [he] at hv
        rw [show Process.attr p "efficiency" = p.efficiency from rfl,
          heff] at hv
        exact AttrValue.noConfusion (Option.some_injective _ hv))]
    rw [filter_costCol_boundRows p r p.name _ _ (fun b hb =>
      List.mem_of_mem_tail hb)]
    rw [houtplain _ _ (fun h => Option.noConfusion h)]
    rw [List.filter_cons, if_pos (hasCostCol_tvEffCostRow p r p.name hcp)]
    simp

/-- C1 witness: the time-varying case of the amended theorem applied to the
concrete process `procC1`. -/
theorem C1_scalar_cost_merge_witness :
    (procC1.input = none ∧ procC1.output = none ∧
      scalarCostParams procC1 ≠ [] ∧
      procC1.efficiency = some (.timeVarying [(2020, 1/2)] none)) ∧
    ((processTopologyRows "REG1" procC1).filter
        (hasScalarCostCol procC1) =
      [timeVaryingEffCostRow "REG1" procC1.name (scalarCostParams procC1)
        (collectBoundParams procC1)] ∧
     List.lookup "commodity-out" (timeVaryingEffCostRow "REG1" procC1.name
       (scalarCostParams procC1) (collectBoundParams procC1)) = none ∧
     List.lookup "eff" (timeVaryingEffCostRow "REG1" procC1.name
       (scalarCostParams procC1) (collectBoundParams procC1)) = none) :=
  ⟨⟨rfl, rfl, by decide, rfl⟩,
   (C1_scalar_cost_merge "REG1" procC1 rfl rfl (by decide)).2.2
     [(2020, 1/2)] none rfl⟩

end Vedalang
